import Mathlib

/-!
# TCF agent: asynchronous request pool (`asyncreq.c`) and Locator service (`discovery.c`)

A shallow embedding of the two C files and the properties proved about them.

* `TCF.Asyncreq`: the worker loop body of `worker_thread_handler`, `aio_done`
  and `async_req_post`, as transitions on an explicit pool state.  Every section
  that the C code runs under `wtlock` is one transition; a failed `assert` in a
  worker aborts the process, after which no transition has any effect.
* `TCF.Discovery`: the Locator command handlers and the peer listener, as
  functions producing the list of calls they make on their collaborators.
-/

namespace TCF.Asyncreq

/-! ## Data model of `asyncreq.c` -/

/-- Values of `AsyncReqInfo.type`.  `other code` stands for any value of the
`int` field that is none of the enumerators handled by the worker. -/
inductive AsyncReqType
  | AsyncReqRead
  | AsyncReqWrite
  | AsyncReqSeekRead
  | AsyncReqSeekWrite
  | AsyncReqRecv
  | AsyncReqSend
  | AsyncReqRecvFrom
  | AsyncReqSendTo
  | AsyncReqAccept
  | AsyncReqConnect
  | AsyncReqWaitpid
  | AsyncReqSelect
  | AsyncReqClose
  | other (code : Nat)
  deriving DecidableEq, Repr

/-- The platform routine a worker invokes for a request. -/
inductive PlatformCall
  | read | write | pread | pwrite | recv | send | recvfrom | sendto
  | accept | connect | waitpid | select | close
  deriving DecidableEq, Repr

/-- The result members of the union `req->u` that the code names:
`u.fio.rval`, `u.sio.rval`, `u.acc.rval`, `u.con.rval`, `u.wpid.rval`,
`u.select.rval`. -/
inductive Slot
  | fio_rval | sio_rval | acc_rval | con_rval | wpid_rval | select_rval
  deriving DecidableEq, Repr

/-- What is read through each result member of the union `req->u`. -/
structure Payload where
  fio_rval : Int
  sio_rval : Int
  acc_rval : Int
  con_rval : Int
  wpid_rval : Int
  select_rval : Int
  deriving DecidableEq, Repr

/-- Storage layout of the union `req->u`.  The declaration of `AsyncReqInfo`
(`asyncreq.h`) is not among the sources, so the layout is a parameter:
`shares a b = true` says that a store through member `a` is what a later load
through member `b` yields (the two members occupy the same storage). -/
structure Layout where
  shares : Slot → Slot → Bool

/-- Compile-time configuration and platform constants used by `asyncreq.c`
(`config.h`, `errno.h` are not among the sources). -/
structure Config where
  /-- The value of `ENABLE_AIO`. -/
  enableAio : Bool
  /-- True when neither `WIN32` nor `_WRS_KERNEL` is defined, so that the
  `AsyncReqWaitpid` case is compiled in. -/
  hasWaitpid : Bool
  /-- The value of the `errno.h` constant `ENOSYS`. -/
  ENOSYS : Int
  /-- The layout of the union `req->u`. -/
  layout : Layout
  /-- True when `assert` is compiled in (`NDEBUG` is not defined). -/
  asserts : Bool

/-- A store `req->u.<s> = v`: member `s` and every member sharing its storage
read `v` afterwards, the others keep their value. -/
def Payload.store (L : Layout) (u : Payload) (s : Slot) (v : Int) : Payload :=
  { fio_rval := if Slot.fio_rval = s ∨ L.shares s Slot.fio_rval = true then v else u.fio_rval
    sio_rval := if Slot.sio_rval = s ∨ L.shares s Slot.sio_rval = true then v else u.sio_rval
    acc_rval := if Slot.acc_rval = s ∨ L.shares s Slot.acc_rval = true then v else u.acc_rval
    con_rval := if Slot.con_rval = s ∨ L.shares s Slot.con_rval = true then v else u.con_rval
    wpid_rval := if Slot.wpid_rval = s ∨ L.shares s Slot.wpid_rval = true then v else u.wpid_rval
    select_rval :=
      if Slot.select_rval = s ∨ L.shares s Slot.select_rval = true then v else u.select_rval }

/-- The fields of `AsyncReqInfo` that `asyncreq.c` reads or writes after the
platform call.  `addr` is the address of the record (the pointer `req`), which
is what identifies a request; `done` is the completion handler. -/
structure AsyncReqInfo where
  addr : Nat
  done : Nat
  type : AsyncReqType
  u : Payload
  error : Int
  deriving DecidableEq, Repr

/-- Outcome of a platform call: the value it returned, the value of `errno`
read right after it, and what its out-parameters leave in the union.  The
out-parameters of `waitpid` (`u.wpid.status`) and of `select` (the three
descriptor sets of `u.select`) are members of the union `req->u` themselves;
`con_view` is the value they leave to be read through `u.con.rval`, and `none`
when they do not reach its storage. -/
structure SysResult where
  rval : Int
  errno : Int
  con_view : Option Int
  deriving DecidableEq, Repr

/-- The effect on the union of the out-parameters of `waitpid` and `select`,
before the return value is stored. -/
def Payload.clobber (L : Layout) (u : Payload) : Option Int → Payload
  | none => u
  | some v => u.store L .con_rval v

/-- The statement pattern
`if (observed == -1) { req->error = errno; assert(req->error); }`: the request
afterwards, and whether the `assert` fails (it does when it is compiled in and
`errno` is 0). -/
def capture_errno (cfg : Config) (req : AsyncReqInfo) (observed : Int) (errno : Int) :
    AsyncReqInfo × Bool :=
  if observed = -1 then ({ req with error := errno }, cfg.asserts && decide (errno = 0))
  else (req, false)

/-- What one pass of the worker through the `switch` yields: the request as it
is at the end of the `switch`, the platform routine that was invoked (if any),
and whether an `assert` failed, in which case the process is aborted and the
rest of the loop body is never reached. -/
structure WorkerPass where
  req : AsyncReqInfo
  call : Option PlatformCall
  aborted : Bool
  deriving DecidableEq, Repr

/-- One pass of the `for (;;)` body of `worker_thread_handler`, from
`req->error = 0` to the end of the `switch`.  `sys` is the outcome of the
platform routine.  `assert(req != NULL)` holds for every worker that has a
request and is left out. -/
def worker_thread_handler (cfg : Config) (req0 : AsyncReqInfo) (sys : SysResult) :
    WorkerPass :=
  let L := cfg.layout
  let req : AsyncReqInfo := { req0 with error := 0 }
  match req.type with
  | .AsyncReqRead =>
    let req := { req with u := req.u.store L .fio_rval sys.rval }
    let r := capture_errno cfg req req.u.fio_rval sys.errno
    { req := r.1, call := some .read, aborted := r.2 }
  | .AsyncReqWrite =>
    let req := { req with u := req.u.store L .fio_rval sys.rval }
    let r := capture_errno cfg req req.u.fio_rval sys.errno
    { req := r.1, call := some .write, aborted := r.2 }
  | .AsyncReqSeekRead =>
    let req := { req with u := req.u.store L .fio_rval sys.rval }
    let r := capture_errno cfg req req.u.fio_rval sys.errno
    { req := r.1, call := some .pread, aborted := r.2 }
  | .AsyncReqSeekWrite =>
    let req := { req with u := req.u.store L .fio_rval sys.rval }
    let r := capture_errno cfg req req.u.fio_rval sys.errno
    { req := r.1, call := some .pwrite, aborted := r.2 }
  | .AsyncReqRecv =>
    let req := { req with u := req.u.store L .sio_rval sys.rval }
    let r := capture_errno cfg req req.u.sio_rval sys.errno
    { req := r.1, call := some .recv, aborted := r.2 }
  | .AsyncReqSend =>
    let req := { req with u := req.u.store L .sio_rval sys.rval }
    let r := capture_errno cfg req req.u.sio_rval sys.errno
    { req := r.1, call := some .send, aborted := r.2 }
  | .AsyncReqRecvFrom =>
    let req := { req with u := req.u.store L .sio_rval sys.rval }
    let r := capture_errno cfg req req.u.sio_rval sys.errno
    { req := r.1, call := some .recvfrom, aborted := r.2 }
  | .AsyncReqSendTo =>
    let req := { req with u := req.u.store L .sio_rval sys.rval }
    let r := capture_errno cfg req req.u.sio_rval sys.errno
    { req := r.1, call := some .sendto, aborted := r.2 }
  | .AsyncReqAccept =>
    let req := { req with u := req.u.store L .acc_rval sys.rval }
    let r := capture_errno cfg req req.u.acc_rval sys.errno
    { req := r.1, call := some .accept, aborted := r.2 }
  | .AsyncReqConnect =>
    -- the store goes through `u.acc.rval`, the test through `u.con.rval`
    let req := { req with u := req.u.store L .acc_rval sys.rval }
    let r := capture_errno cfg req req.u.con_rval sys.errno
    { req := r.1, call := some .connect, aborted := r.2 }
  | .AsyncReqWaitpid =>
    if cfg.hasWaitpid then
      -- the store goes through `u.wpid.rval`, the test through `u.con.rval`
      let req := { req with u := req.u.clobber L sys.con_view }
      let req := { req with u := req.u.store L .wpid_rval sys.rval }
      let r := capture_errno cfg req req.u.con_rval sys.errno
      { req := r.1, call := some .waitpid, aborted := r.2 }
    else
      { req := { req with error := cfg.ENOSYS }, call := none, aborted := false }
  | .AsyncReqSelect =>
    -- the store goes through `u.select.rval`, the test through `u.con.rval`
    let req := { req with u := req.u.clobber L sys.con_view }
    let req := { req with u := req.u.store L .select_rval sys.rval }
    let r := capture_errno cfg req req.u.con_rval sys.errno
    { req := r.1, call := some .select, aborted := r.2 }
  | .AsyncReqClose =>
    let req := { req with u := req.u.store L .fio_rval sys.rval }
    let r := capture_errno cfg req req.u.fio_rval sys.errno
    { req := r.1, call := some .close, aborted := r.2 }
  | .other _ =>
    { req := { req with error := cfg.ENOSYS }, call := none, aborted := false }

/-- An entry of the event queue: `post_event(handler, arg)`. -/
structure Event where
  handler : Nat
  arg : AsyncReqInfo
  deriving DecidableEq, Repr

/-- The state shared through `wtlock`, with the observable surroundings.
Workers are named by the order of their creation.  The `check_error` calls
around the `pthread` primitives are taken to succeed. -/
structure PoolState where
  /-- The free list `wtlist`: the idle workers, first to last. -/
  wtlist : List Nat
  /-- The workers whose `wt->req` is set, each with that request. -/
  busy : List (Nat × AsyncReqInfo)
  /-- The number of successful `pthread_create` calls so far. -/
  created : Nat
  /-- The requests handed to the native asynchronous I/O facility whose
  notification has not run yet. -/
  aio : List AsyncReqInfo
  /-- The calls of `post_event` made so far, oldest first. -/
  events : List Event
  /-- True once an `assert` has failed in a worker: the process is aborted and
  nothing happens any more. -/
  aborted : Bool
  deriving DecidableEq, Repr

/-- The state after `ini_asyncreq`. -/
def ini_asyncreq : PoolState :=
  { wtlist := [], busy := [], created := 0, aio := [], events := [], aborted := false }

/-- The call `post_event(req->done, req)`. -/
def post_event (s : PoolState) (req : AsyncReqInfo) : PoolState :=
  { s with events := s.events ++ [{ handler := req.done, arg := req }] }

/-- What the surroundings answer during one call of `async_req_post`: the
value returned by `aio_read`/`aio_write`, the value of `errno` after it, and
the value returned by `pthread_create`. -/
structure PostEnv where
  aio_res : Int
  errno : Int
  create_error : Int
  deriving DecidableEq, Repr

/-- The function `async_req_post`.  `assert(wt->req == NULL)` holds for every
worker on the free list and is left out. -/
def async_req_post (cfg : Config) (s : PoolState) (req : AsyncReqInfo) (env : PostEnv) :
    PoolState :=
  if cfg.enableAio = true ∧
      (req.type = .AsyncReqSeekRead ∨ req.type = .AsyncReqSeekWrite) then
    if env.aio_res < 0 then
      let req := { req with u := req.u.store cfg.layout .fio_rval (-1) }
      let req := { req with error := env.errno }
      post_event s req
    else
      { s with aio := s.aio ++ [req] }
  else
    match s.wtlist with
    | [] =>
      if env.create_error ≠ 0 then
        let req := { req with error := env.create_error }
        post_event s req
      else
        { s with busy := s.busy ++ [(s.created, req)], created := s.created + 1 }
    | wt :: rest =>
      { s with wtlist := rest, busy := s.busy ++ [(wt, req)] }

/-- Finds the entry of worker `wt` among the busy workers and removes it. -/
def take_busy (wt : Nat) : List (Nat × AsyncReqInfo) →
    Option (AsyncReqInfo × List (Nat × AsyncReqInfo))
  | [] => none
  | (w, r) :: rest =>
    if w = wt then some (r, rest)
    else match take_busy wt rest with
      | none => none
      | some (r1, rest1) => some (r1, (w, r) :: rest1)

/-- Finds the outstanding native request at address `addr` and removes it. -/
def take_aio (addr : Nat) : List AsyncReqInfo → Option (AsyncReqInfo × List AsyncReqInfo)
  | [] => none
  | r :: rest =>
    if r.addr = addr then some (r, rest)
    else match take_aio addr rest with
      | none => none
      | some (r1, rest1) => some (r1, r :: rest1)

/-- The tail of the loop body of `worker_thread_handler` for worker `wt`, whose
platform call returned `sys`, reached when no `assert` failed in the pass: under
`wtlock`, post the completion event, clear `wt->req`, and append the worker to
`wtlist`.  Nothing happens when `wt` has no request. -/
def worker_complete (cfg : Config) (s : PoolState) (wt : Nat) (sys : SysResult) : PoolState :=
  match take_busy wt s.busy with
  | none => s
  | some (req, rest) =>
    let req := (worker_thread_handler cfg req sys).req
    let s := post_event s req
    { s with busy := rest, wtlist := s.wtlist ++ [wt] }

/-- Whether the pass of worker `wt` over its request, the platform call
returning `sys`, fails an `assert`. -/
def worker_aborts (cfg : Config) (s : PoolState) (wt : Nat) (sys : SysResult) : Bool :=
  match take_busy wt s.busy with
  | none => false
  | some (req, _) => (worker_thread_handler cfg req sys).aborted

/-- The loop body of `worker_thread_handler` for worker `wt`: the pass through
the `switch`, which aborts the process when an `assert` fails, and else the
tail under `wtlock`. -/
def worker_iteration (cfg : Config) (s : PoolState) (wt : Nat) (sys : SysResult) : PoolState :=
  if worker_aborts cfg s wt sys = true then { s with aborted := true }
  else worker_complete cfg s wt sys

/-- The two assignments of `aio_done`: `req->u.fio.rval = aio_return(...)` and
`if (req->u.fio.rval < 0) req->error = aio_error(...)`.  `ret` is what
`aio_return` yields and `err` what `aio_error` yields. -/
def aio_done_req (cfg : Config) (req : AsyncReqInfo) (ret : Int) (err : Int) : AsyncReqInfo :=
  let req := { req with u := req.u.store cfg.layout .fio_rval ret }
  if req.u.fio_rval < 0 then { req with error := err } else req

/-- The function `aio_done` for the outstanding native request at `addr`.
Nothing happens when there is no such request. -/
def aio_done (cfg : Config) (s : PoolState) (addr : Nat) (ret : Int) (err : Int) : PoolState :=
  match take_aio addr s.aio with
  | none => s
  | some (req, rest) => post_event { s with aio := rest } (aio_done_req cfg req ret err)

/-- The transitions of the pool. -/
inductive Step
  | post (req : AsyncReqInfo) (env : PostEnv)
  | complete (wt : Nat) (sys : SysResult)
  | aioDone (addr : Nat) (ret : Int) (err : Int)
  deriving DecidableEq, Repr

/-- One transition.  Nothing happens once the process is aborted. -/
def step (cfg : Config) (s : PoolState) (st : Step) : PoolState :=
  if s.aborted = true then s
  else
    match st with
    | .post req env => async_req_post cfg s req env
    | .complete wt sys => worker_iteration cfg s wt sys
    | .aioDone addr ret err => aio_done cfg s addr ret err

/-- A sequence of transitions, first to last. -/
def run (cfg : Config) (s : PoolState) (steps : List Step) : PoolState :=
  steps.foldl (step cfg) s

/-! ## Observations on runs of the pool -/

/-- The number of `post_event` calls made for the request at address `a`. -/
def scheduled (s : PoolState) (a : Nat) : Nat :=
  s.events.countP (fun e => decide (e.arg.addr = a))

/-- The number of times the request at address `a` is in the hands of a worker
or of the native asynchronous I/O facility. -/
def pending (s : PoolState) (a : Nat) : Nat :=
  s.busy.countP (fun b => decide (b.2.addr = a)) + s.aio.countP (fun r => decide (r.addr = a))

/-- The requests passed to `async_req_post` in a sequence of transitions. -/
def posted : List Step → List AsyncReqInfo
  | [] => []
  | .post req _ :: rest => req :: posted rest
  | _ :: rest => posted rest

/-- The number of times the request at address `a` was passed to
`async_req_post`. -/
def submitted (steps : List Step) (a : Nat) : Nat :=
  (posted steps).countP (fun r => decide (r.addr = a))

/-- The number of requests in flight in the pool: assigned to a worker and not
yet completed. -/
def inFlight (s : PoolState) : Nat := s.busy.length

/-- The largest number of requests simultaneously in flight in any state
visited by the run of `steps` from `s`. -/
def peak (cfg : Config) (s : PoolState) : List Step → Nat
  | [] => inFlight s
  | st :: rest => max (inFlight s) (peak cfg (step cfg s st) rest)

/-- Strictly sequential submission: every `async_req_post` happens in a state
with no request in flight. -/
def sequential (cfg : Config) (s : PoolState) : List Step → Bool
  | [] => true
  | .post req env :: rest =>
    decide (inFlight s = 0) && sequential cfg (step cfg s (.post req env)) rest
  | st :: rest => sequential cfg (step cfg s st) rest

/-- Two request records are the same request: same address, same completion
handler, same kind. -/
def sameRequest (x y : AsyncReqInfo) : Prop :=
  x.addr = y.addr ∧ x.done = y.done ∧ x.type = y.type

/-- Every request known to the state (scheduled, at a worker, or at the native
facility) is one of the requests `R`, and every scheduled event carries the
handler of its own request. -/
def Provenance (s : PoolState) (R : List AsyncReqInfo) : Prop :=
  (∀ e ∈ s.events, e.handler = e.arg.done ∧ ∃ r ∈ R, sameRequest e.arg r) ∧
  (∀ b ∈ s.busy, ∃ r ∈ R, sameRequest b.2 r) ∧
  (∀ q ∈ s.aio, ∃ r ∈ R, sameRequest q r)

/-- A load `req->u.<s>`. -/
def Payload.get (u : Payload) : Slot → Int
  | .fio_rval => u.fio_rval
  | .sio_rval => u.sio_rval
  | .acc_rval => u.acc_rval
  | .con_rval => u.con_rval
  | .wpid_rval => u.wpid_rval
  | .select_rval => u.select_rval

/-- The result member of each request kind, after the name of its variant of
the union. -/
def result_member : AsyncReqType → Option Slot
  | .AsyncReqRead => some .fio_rval
  | .AsyncReqWrite => some .fio_rval
  | .AsyncReqSeekRead => some .fio_rval
  | .AsyncReqSeekWrite => some .fio_rval
  | .AsyncReqRecv => some .sio_rval
  | .AsyncReqSend => some .sio_rval
  | .AsyncReqRecvFrom => some .sio_rval
  | .AsyncReqSendTo => some .sio_rval
  | .AsyncReqAccept => some .acc_rval
  | .AsyncReqConnect => some .con_rval
  | .AsyncReqWaitpid => some .wpid_rval
  | .AsyncReqSelect => some .select_rval
  | .AsyncReqClose => some .fio_rval
  | .other _ => none

/-- A payload whose members all read 0 (a request from `loc_alloc_zero`). -/
def Payload.zero : Payload :=
  { fio_rval := 0, sio_rval := 0, acc_rval := 0, con_rval := 0, wpid_rval := 0,
    select_rval := 0 }

/-- A layout in which `u.acc.rval` and `u.con.rval` occupy the same storage (the
structs `acc` and `con` have the same members) and no other two result members
do. -/
def Layout.accCon : Layout :=
  { shares := fun a b =>
      (decide (a = .acc_rval) && decide (b = .con_rval)) ||
      (decide (a = .con_rval) && decide (b = .acc_rval)) }

/-- A POSIX build without native asynchronous I/O and with `assert` compiled
in; `ENOSYS` is 38 as on Linux. -/
def posixConfig : Config :=
  { enableAio := false, hasWaitpid := true, ENOSYS := 38, layout := Layout.accCon,
    asserts := true }

/-- The platform keeps its contract: a call that returns -1 has set `errno` to
a non-zero value. -/
def SysResult.lawful (sys : SysResult) : Prop := sys.rval = -1 → sys.errno ≠ 0

/-- The state reached from the initial state by a sequence of transitions. -/
def reached (cfg : Config) (steps : List Step) : PoolState := run cfg ini_asyncreq steps

/-- The worker names currently in use: the idle workers and the busy ones. -/
def workers (s : PoolState) : List Nat := s.wtlist ++ s.busy.map Prod.fst

/-- No worker is listed twice (as idle, as busy, or both), and every worker
listed has been created. -/
def WorkersOk (s : PoolState) : Prop :=
  (workers s).Nodup ∧ ∀ w ∈ workers s, w < s.created

/-- An `AsyncReqWaitpid` request at address 1 with handler 7 whose record reads
-1 through `u.con.rval` and 0 through the other result members. -/
def staleWaitpid : AsyncReqInfo :=
  { addr := 1, done := 7, type := .AsyncReqWaitpid,
    u := { fio_rval := 0, sio_rval := 0, acc_rval := 0, con_rval := -1, wpid_rval := 0,
           select_rval := 0 },
    error := 0 }

/-- A zeroed request at address `a` of the given kind with handler `d`. -/
def mkReq (a : Nat) (d : Nat) (t : AsyncReqType) : AsyncReqInfo :=
  { addr := a, done := d, type := t, u := Payload.zero, error := 0 }

/-- Surroundings in which both `aio_read`/`aio_write` and `pthread_create`
succeed. -/
def PostEnv.ok : PostEnv := { aio_res := 0, errno := 0, create_error := 0 }

end TCF.Asyncreq

namespace TCF.Discovery

/-! ## Data model of `discovery.c`

C strings are `String`s, one `Char` per `char`.  Channels, heap blocks and
peers are named by numbers.  A handler is modelled by the list of calls it makes
on its collaborators (the stream writer, the channel layer, the allocator), in
program order. -/

/-- Constants that `discovery.c` takes from headers that are not among the
sources (`streams.h`, `errors.h`, `peer.h`). -/
structure Consts where
  MARKER_EOM : Int
  ERR_JSON_SYNTAX : Int
  ERR_UNKNOWN_PEER : Int
  PS_FLAG_DISCOVERABLE : Nat

/-- The fields of `PeerServer` that `discovery.c` reads: `id`, the `ind`
entries of `list` as (name, value) pairs, and `flags`. -/
structure PeerServer where
  id : String
  list : List (String × String)
  flags : Nat
  deriving DecidableEq, Repr

/-- The second argument of a peer listener.  The four `PS_EVENT_` constants
are the case labels of the `switch`; `other` is any other value. -/
inductive PeerEventType
  | PS_EVENT_ADDED
  | PS_EVENT_CHANGED
  | PS_EVENT_HEART_BEAT
  | PS_EVENT_REMOVED
  | other (code : Nat)
  deriving DecidableEq, Repr

/-- A call on an `OutputStream`. -/
inductive StreamOp
  | write_stream (ch : Int)
  | write_stringz (s : String)
  | json_write_string (s : String)
  | write_errno (err : Int)
  | flush_stream
  deriving DecidableEq, Repr

/-- The code of a character constant such as `','`. -/
def chr (c : Char) : Int := (c.toNat : Int)

/-- The test `(ps->flags & PS_FLAG_DISCOVERABLE) != 0`. -/
def discoverable (K : Consts) (ps : PeerServer) : Bool :=
  decide (ps.flags &&& K.PS_FLAG_DISCOVERABLE ≠ 0)

/-- The function `write_peer_properties`: the calls made on `out` and the new
value of the static counter `peer_cnt`, given its value at entry.  The counter
is an `int` that every caller resets to 0; it is modelled without wrap-around,
which it would take 2^31 peers to reach. -/
def write_peer_properties (ps : PeerServer) (peer_cnt : Int) : List StreamOp × Int :=
  ((if peer_cnt > 0 then [StreamOp.write_stream (chr ',')] else [])
    ++ [StreamOp.write_stream (chr '{'),
        StreamOp.json_write_string "ID",
        StreamOp.write_stream (chr ':'),
        StreamOp.json_write_string ps.id]
    ++ (ps.list.map (fun p =>
          [StreamOp.write_stream (chr ','),
           StreamOp.json_write_string p.1,
           StreamOp.write_stream (chr ':'),
           StreamOp.json_write_string p.2])).flatten
    ++ [StreamOp.write_stream (chr '}')],
   peer_cnt + 1)

/-- Modelled from the spec: `peer_server_iter` (`peer.c` is not among the
sources) calls the function on every peer present in the registry, in registry
order.  Here the function is `write_peer_properties`, which always returns 0,
so the iteration never stops early. -/
def peer_server_iter (registry : List PeerServer) (peer_cnt : Int) : List StreamOp × Int :=
  registry.foldl
    (fun acc ps =>
      let r := write_peer_properties ps acc.2
      (acc.1 ++ r.1, r.2))
    ([], peer_cnt)

/-- Modelled from the spec: `peer_server_find` (`peer.c` is not among the
sources) looks a peer up in the registry by its identifier. -/
def peer_server_find (registry : List PeerServer) (id : String) : Option PeerServer :=
  registry.find? (fun ps => decide (ps.id = id))

/-- What a command handler leaves behind: the calls it made, the value of
`peer_cnt`, and the error code if it left through `exception(...)`. -/
structure Handled (α : Type) where
  calls : List α
  peer_cnt : Int
  raised : Option Int
  deriving DecidableEq, Repr

/-- The function `command_sync`; `ch` is what `read_stream(&c->inp)` returns. -/
def command_sync (K : Consts) (token : String) (ch : Int) (peer_cnt : Int) :
    Handled StreamOp :=
  if ch ≠ K.MARKER_EOM then { calls := [], peer_cnt := peer_cnt, raised := some K.ERR_JSON_SYNTAX }
  else
    { calls := [.write_stringz "R", .write_stringz token, .write_errno 0,
                .write_stream K.MARKER_EOM]
      peer_cnt := peer_cnt
      raised := none }

/-- The function `command_get_peers`; `ch` is what `read_stream(&c->inp)`
returns, `peer_cnt` the value of the static counter at entry. -/
def command_get_peers (K : Consts) (registry : List PeerServer) (token : String) (ch : Int)
    (peer_cnt : Int) : Handled StreamOp :=
  if ch ≠ K.MARKER_EOM then { calls := [], peer_cnt := peer_cnt, raised := some K.ERR_JSON_SYNTAX }
  else
    let it := peer_server_iter registry 0
    { calls := [.write_stringz "R", .write_stringz token, .write_errno 0,
                .write_stream (chr '[')]
               ++ it.1
               ++ [.write_stream (chr ']'), .write_stream 0, .write_stream K.MARKER_EOM]
      peer_cnt := it.2
      raised := none }

/-- The function `peer_change_event`: the calls made on the broadcast stream
and the new value of `peer_cnt`. -/
def peer_change_event (K : Consts) (ps : PeerServer) (type : PeerEventType) (peer_cnt : Int) :
    List StreamOp × Int :=
  if ps.flags &&& K.PS_FLAG_DISCOVERABLE = 0 then ([], peer_cnt)
  else
    let head := [StreamOp.write_stringz "E", StreamOp.write_stringz "Locator"]
    let tail := [StreamOp.write_stream 0, StreamOp.write_stream K.MARKER_EOM,
                 StreamOp.flush_stream]
    match type with
    | .PS_EVENT_ADDED =>
      let r := write_peer_properties ps 0
      (head ++ [.write_stringz "peerAdded"] ++ r.1 ++ tail, r.2)
    | .PS_EVENT_CHANGED =>
      let r := write_peer_properties ps 0
      (head ++ [.write_stringz "peerChanged"] ++ r.1 ++ tail, r.2)
    | .PS_EVENT_HEART_BEAT =>
      (head ++ [.write_stringz "peerHeartBeat", .json_write_string ps.id] ++ tail, peer_cnt)
    | .PS_EVENT_REMOVED =>
      (head ++ [.write_stringz "peerRemoved", .json_write_string ps.id] ++ tail, peer_cnt)
    | .other _ => (head ++ tail, peer_cnt)

/-- The record `RedirectInfo`, with the address of its heap block. -/
structure RedirectInfo where
  addr : Nat
  channel : Nat
  token : String
  deriving DecidableEq, Repr

/-- A call made by the redirect code on one of its collaborators.
`out c op` is the call `op` on `&c->out`; `channel_connect ps info` is
`channel_connect(ps, channel_connected, info)`. -/
inductive Action
  | out (c : Nat) (op : StreamOp)
  | loc_alloc_zero (addr : Nat)
  | stream_lock (c : Nat)
  | stream_unlock (c : Nat)
  | channel_connect (ps : PeerServer) (info : RedirectInfo)
  | proxy_create (c1 c2 : Nat)
  | channel_close (c : Nat)
  | loc_free (addr : Nat)
  deriving DecidableEq, Repr

/-- The call `strncpy(dst, src, n)` into a zeroed buffer of more than `n`
bytes: the string then held by `dst`. -/
def strncpy (src : String) (n : Nat) : String := String.mk (src.data.take n)

/-- The function `channel_connected`.  `closed` is what `is_stream_closed(c1)`
returns. -/
def channel_connected (K : Consts) (info : RedirectInfo) (error : Int) (c2 : Nat)
    (closed : Bool) : List Action :=
  let c1 := info.channel
  (if closed = false then
      (if error = 0 then [Action.proxy_create c1 c2] else [])
      ++ [.out c1 (.write_stringz "R"),
          .out c1 (.write_stringz info.token),
          .out c1 (.write_errno error),
          .out c1 (.write_stream K.MARKER_EOM)]
    else if error = 0 then [Action.channel_close c2]
    else [])
  ++ [.stream_unlock c1, .loc_free info.addr]

/-- What the three reads at the head of `command_redirect` return:
`json_read_string` (the string left in `id`, or the error it raises) and the two
`read_stream` calls. -/
structure RedirectArgs where
  id : Except Int String
  ch1 : Int
  ch2 : Int

/-- The arguments are well formed: a string, its terminator, and then the
marker that ends the message. -/
def RedirectArgs.wellFormed (K : Consts) (a : RedirectArgs) (id : String) : Prop :=
  a.id = .ok id ∧ a.ch1 = 0 ∧ a.ch2 = K.MARKER_EOM

/-- The function `command_redirect` on channel `c`.  `heap` is the address
that `loc_alloc_zero` returns. -/
def command_redirect (K : Consts) (registry : List PeerServer) (token : String) (c : Nat)
    (inp : RedirectArgs) (heap : Nat) (peer_cnt : Int) : Handled Action :=
  match inp.id with
  | .error e => { calls := [], peer_cnt := peer_cnt, raised := some e }
  | .ok id =>
    if inp.ch1 ≠ 0 then { calls := [], peer_cnt := peer_cnt, raised := some K.ERR_JSON_SYNTAX }
    else if inp.ch2 ≠ K.MARKER_EOM then
      { calls := [], peer_cnt := peer_cnt, raised := some K.ERR_JSON_SYNTAX }
    else
      match peer_server_find registry id with
      | some ps =>
        let info : RedirectInfo :=
          { addr := heap, channel := c, token := strncpy token (256 - 1) }
        { calls := [.loc_alloc_zero heap, .stream_lock c, .channel_connect ps info]
          peer_cnt := peer_cnt
          raised := none }
      | none =>
        { calls := [.out c (.write_stringz "R"),
                    .out c (.write_stringz token),
                    .out c (.write_errno K.ERR_UNKNOWN_PEER),
                    .out c (.write_stream K.MARKER_EOM)]
          peer_cnt := peer_cnt
          raised := none }

/-- How a connection attempt started by `channel_connect` ends: the error
code, the new channel, and whether the requesting channel is closed by then. -/
structure Completion where
  error : Int
  c2 : Nat
  closed : Bool
  deriving DecidableEq, Repr

/-- Modelled from the spec: `channel_connect` (`channel.c` is not among the
sources) completes each attempt by running its callback once.  The calls made
by the callbacks of the `channel_connect` calls in `calls`. -/
def completions (K : Consts) (done : Completion) : List Action → List Action
  | [] => []
  | .channel_connect _ info :: rest =>
    channel_connected K info done.error done.c2 done.closed ++ completions K done rest
  | _ :: rest => completions K done rest

/-- A whole redirect: `command_redirect`, then the completion of the
connection attempt it started, if any. -/
def redirect (K : Consts) (registry : List PeerServer) (token : String) (c : Nat)
    (inp : RedirectArgs) (heap : Nat) (done : Completion) : List Action :=
  let r := command_redirect K registry token c inp heap 0
  r.calls ++ completions K done r.calls

/-! ## The messages as the specification words them -/

/-- A peer object as the specification words it: an object that starts with
an "ID" field, followed by one field per named property of the peer. -/
def peer_object (ps : PeerServer) : List StreamOp :=
  [StreamOp.write_stream (chr '{'),
   StreamOp.json_write_string "ID",
   StreamOp.write_stream (chr ':'),
   StreamOp.json_write_string ps.id]
  ++ (ps.list.map (fun p =>
        [StreamOp.write_stream (chr ','),
         StreamOp.json_write_string p.1,
         StreamOp.write_stream (chr ':'),
         StreamOp.json_write_string p.2])).flatten
  ++ [StreamOp.write_stream (chr '}')]

/-- The elements of an array, separated by single commas. -/
def separated : List (List StreamOp) → List StreamOp
  | [] => []
  | [x] => x
  | x :: y :: rest => x ++ [StreamOp.write_stream (chr ',')] ++ separated (y :: rest)

/-- A JSON array with the given elements; `[]` when there are none. -/
def json_array (elems : List (List StreamOp)) : List StreamOp :=
  [StreamOp.write_stream (chr '[')] ++ separated elems ++ [StreamOp.write_stream (chr ']')]

/-- The reply to `getPeers` that lists the peers `peers`: "R", the token,
error 0, the array with one object per peer, the terminating NUL and the
end-of-message marker. -/
def get_peers_reply (K : Consts) (token : String) (peers : List PeerServer) : List StreamOp :=
  [StreamOp.write_stringz "R", StreamOp.write_stringz token, StreamOp.write_errno 0]
  ++ json_array (peers.map peer_object)
  ++ [StreamOp.write_stream 0, StreamOp.write_stream K.MARKER_EOM]

/-- A Locator event: "E", "Locator", the event name, the body, the
terminating NUL, the end-of-message marker, and the flush. -/
def locator_event (K : Consts) (name : String) (body : List StreamOp) : List StreamOp :=
  [StreamOp.write_stringz "E", StreamOp.write_stringz "Locator", StreamOp.write_stringz name]
  ++ body
  ++ [StreamOp.write_stream 0, StreamOp.write_stream K.MARKER_EOM, StreamOp.flush_stream]

/-- A reply to a command on channel `c`: "R", the token, the error code and
the end-of-message marker. -/
def reply (K : Consts) (c : Nat) (token : String) (err : Int) : List Action :=
  [Action.out c (.write_stringz "R"),
   Action.out c (.write_stringz token),
   Action.out c (.write_errno err),
   Action.out c (.write_stream K.MARKER_EOM)]

/-- The calls in a list that write to the output of channel `c`. -/
def written (c : Nat) (calls : List Action) : List StreamOp :=
  calls.filterMap (fun a =>
    match a with
    | .out d op => if d = c then some op else none
    | _ => none)

/-- Sample values for the constants of the missing headers. -/
def sampleConsts : Consts :=
  { MARKER_EOM := -1, ERR_JSON_SYNTAX := 3, ERR_UNKNOWN_PEER := 19,
    PS_FLAG_DISCOVERABLE := 4 }

/-- A discoverable peer with two properties. -/
def peerA : PeerServer :=
  { id := "TCP:10.0.0.1:1534", list := [("Name", "agent A"), ("Port", "1534")], flags := 4 }

/-- A peer that is not marked discoverable. -/
def peerC : PeerServer :=
  { id := "TCP:10.0.0.3:1534", list := [("Name", "agent C")], flags := 1 }

/-- Well-formed arguments of a `redirect` to the peer with identifier `id`. -/
def redirectArgs (K : Consts) (id : String) : RedirectArgs :=
  { id := .ok id, ch1 := 0, ch2 := K.MARKER_EOM }

/-- A token of 256 characters. -/
def longToken : String := String.mk (List.replicate 256 'a')

end TCF.Discovery

namespace TCF.Asyncreq

/-! ## Properties of the request pool -/

theorem capture_errno_fields (cfg : Config) (req : AsyncReqInfo) (v e : Int) :
    (capture_errno cfg req v e).1.addr = req.addr ∧
      (capture_errno cfg req v e).1.done = req.done ∧
      (capture_errno cfg req v e).1.type = req.type ∧
      (capture_errno cfg req v e).1.u = req.u := by
  unfold capture_errno
  split <;> simp

theorem worker_thread_handler_same (cfg : Config) (req : AsyncReqInfo) (sys : SysResult) :
    sameRequest (worker_thread_handler cfg req sys).req req := by
  unfold sameRequest worker_thread_handler
  cases h : req.type <;> simp only [h] <;> try split
  all_goals simp [capture_errno_fields, h]

theorem aio_done_req_same (cfg : Config) (req : AsyncReqInfo) (ret err : Int) :
    sameRequest (aio_done_req cfg req ret err) req := by
  unfold sameRequest aio_done_req
  simp only
  split <;> simp

theorem take_busy_some (wt : Nat) (p : Nat × AsyncReqInfo → Bool) :
    ∀ (l : List (Nat × AsyncReqInfo)) (r : AsyncReqInfo) (rest : List (Nat × AsyncReqInfo)),
      take_busy wt l = some (r, rest) →
        l.length = rest.length + 1 ∧ (wt, r) ∈ l ∧ (∀ b ∈ rest, b ∈ l) ∧
          l.countP p = rest.countP p + (if p (wt, r) = true then 1 else 0) := by
  intro l
  induction l with
  | nil => intro r rest h; simp [take_busy] at h
  | cons b tl ih =>
    intro r rest h
    obtain ⟨w, q⟩ := b
    unfold take_busy at h
    by_cases hw : w = wt
    · simp only [hw, if_true, Option.some.injEq, Prod.mk.injEq] at h
      obtain ⟨h1, h2⟩ := h
      subst h1 h2 hw
      refine ⟨by simp, by simp, fun b hb => List.mem_cons_of_mem _ hb, ?_⟩
      rw [List.countP_cons]
    · simp only [hw, if_false] at h
      cases ht : take_busy wt tl with
      | none => simp [ht] at h
      | some pr =>
        obtain ⟨r1, rest1⟩ := pr
        simp only [ht, Option.some.injEq, Prod.mk.injEq] at h
        obtain ⟨h1, h2⟩ := h
        subst h1 h2
        obtain ⟨hl, hm, hs, hc⟩ := ih r1 rest1 ht
        refine ⟨by simp [hl], List.mem_cons_of_mem _ hm, ?_, ?_⟩
        · intro b hb
          rcases List.mem_cons.mp hb with hb | hb
          · exact hb ▸ List.mem_cons_self _ _
          · exact List.mem_cons_of_mem _ (hs b hb)
        · rw [List.countP_cons, List.countP_cons, hc]
          omega

theorem take_aio_some (addr : Nat) (p : AsyncReqInfo → Bool) :
    ∀ (l : List AsyncReqInfo) (r : AsyncReqInfo) (rest : List AsyncReqInfo),
      take_aio addr l = some (r, rest) →
        r ∈ l ∧ (∀ b ∈ rest, b ∈ l) ∧
          l.countP p = rest.countP p + (if p r = true then 1 else 0) := by
  intro l
  induction l with
  | nil => intro r rest h; simp [take_aio] at h
  | cons q tl ih =>
    intro r rest h
    unfold take_aio at h
    by_cases hw : q.addr = addr
    · simp only [hw, if_true, Option.some.injEq, Prod.mk.injEq] at h
      obtain ⟨h1, h2⟩ := h
      subst h1 h2
      refine ⟨by simp, fun b hb => List.mem_cons_of_mem _ hb, ?_⟩
      rw [List.countP_cons]
    · simp only [hw, if_false] at h
      cases ht : take_aio addr tl with
      | none => simp [ht] at h
      | some pr =>
        obtain ⟨r1, rest1⟩ := pr
        simp only [ht, Option.some.injEq, Prod.mk.injEq] at h
        obtain ⟨h1, h2⟩ := h
        subst h1 h2
        obtain ⟨hm, hs, hc⟩ := ih r1 rest1 ht
        refine ⟨List.mem_cons_of_mem _ hm, ?_, ?_⟩
        · intro b hb
          rcases List.mem_cons.mp hb with hb | hb
          · exact hb ▸ List.mem_cons_self _ _
          · exact List.mem_cons_of_mem _ (hs b hb)
        · rw [List.countP_cons, List.countP_cons, hc]
          omega

theorem step_of_aborted (cfg : Config) (s : PoolState) (st : Step) (h : s.aborted = true) :
    step cfg s st = s := by
  simp [step, h]

theorem step_of_alive (cfg : Config) (s : PoolState) (st : Step) (h : s.aborted = false) :
    step cfg s st =
      match st with
      | .post req env => async_req_post cfg s req env
      | .complete wt sys => worker_iteration cfg s wt sys
      | .aioDone addr ret err => aio_done cfg s addr ret err := by
  simp [step, h]

theorem worker_iteration_cases (cfg : Config) (s : PoolState) (wt : Nat) (sys : SysResult) :
    worker_iteration cfg s wt sys = { s with aborted := true } ∨
    worker_iteration cfg s wt sys = worker_complete cfg s wt sys := by
  unfold worker_iteration
  split
  · exact Or.inl rfl
  · exact Or.inr rfl

theorem run_cons (cfg : Config) (s : PoolState) (st : Step) (rest : List Step) :
    run cfg s (st :: rest) = run cfg (step cfg s st) rest := rfl

theorem run_append (cfg : Config) (s : PoolState) (xs ys : List Step) :
    run cfg s (xs ++ ys) = run cfg (run cfg s xs) ys := by
  simp [run, List.foldl_append]

/-- Nothing happens once the process is aborted. -/
theorem run_of_aborted (cfg : Config) :
    ∀ (steps : List Step) (s : PoolState), s.aborted = true → run cfg s steps = s := by
  intro steps
  induction steps with
  | nil => intro s _; rfl
  | cons st rest ih =>
    intro s h
    rw [run_cons, step_of_aborted cfg s st h]
    exact ih s h

theorem alive_of_run_alive (cfg : Config) (steps : List Step) (s : PoolState)
    (h : (run cfg s steps).aborted = false) : s.aborted = false := by
  cases hs : s.aborted with
  | false => rfl
  | true =>
    rw [run_of_aborted cfg steps s hs] at h
    rw [hs] at h
    exact h

/-- While the process lives, the number of completions scheduled plus the
number of requests still pending grows by one exactly when the request is
submitted. -/
theorem step_count (cfg : Config) (s : PoolState) (st : Step) (a : Nat)
    (h : s.aborted = false) :
    scheduled (step cfg s st) a + pending (step cfg s st) a =
      scheduled s a + pending s a + submitted [st] a := by
  rw [step_of_alive cfg s st h]
  cases st with
  | post req env =>
    simp only [async_req_post, submitted, posted, post_event]
    split
    · split
      · simp only [scheduled, pending, List.countP_append, List.countP_cons, List.countP_nil]
        simp only [Nat.zero_add]
        omega
      · simp only [scheduled, pending, List.countP_append, List.countP_cons, List.countP_nil]
        omega
    · split
      · split
        · simp only [scheduled, pending, List.countP_append, List.countP_cons, List.countP_nil]
          simp only [Nat.zero_add]
          omega
        · simp only [scheduled, pending, List.countP_append, List.countP_cons, List.countP_nil]
          omega
      · simp only [scheduled, pending, List.countP_append, List.countP_cons, List.countP_nil]
        omega
  | complete wt sys =>
    simp only [submitted, posted, List.countP_nil, Nat.add_zero]
    rcases worker_iteration_cases cfg s wt sys with hc | hc
    · rw [hc]
      rfl
    · rw [hc]
      simp only [worker_complete]
      cases ht : take_busy wt s.busy with
      | none => rfl
      | some pr =>
        obtain ⟨r, rest⟩ := pr
        obtain ⟨_, _, _, hc⟩ :=
          take_busy_some wt (fun b => decide (b.2.addr = a)) s.busy r rest ht
        have hsame := (worker_thread_handler_same cfg r sys).1
        simp only [scheduled, pending, post_event, List.countP_append, List.countP_cons,
          List.countP_nil, hc, hsame]
        simp only [Nat.zero_add]
        omega
  | aioDone addr ret err =>
    simp only [aio_done, submitted, posted, List.countP_nil, Nat.add_zero]
    cases ht : take_aio addr s.aio with
    | none => rfl
    | some pr =>
      obtain ⟨r, rest⟩ := pr
      obtain ⟨_, _, hc⟩ := take_aio_some addr (fun q => decide (q.addr = a)) s.aio r rest ht
      have hsame := (aio_done_req_same cfg r ret err).1
      simp only [scheduled, pending, post_event, List.countP_append, List.countP_cons,
        List.countP_nil, hc, hsame]
      simp only [Nat.zero_add]
      omega

theorem posted_cons (st : Step) (rest : List Step) :
    posted (st :: rest) = posted [st] ++ posted rest := by
  cases st <;> simp [posted]

theorem run_count (cfg : Config) (a : Nat) :
    ∀ (steps : List Step) (s : PoolState), (run cfg s steps).aborted = false →
      scheduled (run cfg s steps) a + pending (run cfg s steps) a =
        scheduled s a + pending s a + submitted steps a := by
  intro steps
  induction steps with
  | nil => intro s _; simp [run, submitted, posted]
  | cons st rest ih =>
    intro s hfin
    have hs : s.aborted = false := alive_of_run_alive cfg (st :: rest) s hfin
    rw [run_cons] at hfin ⊢
    have h1 := ih (step cfg s st) hfin
    have h2 := step_count cfg s st a hs
    rw [h1, h2]
    simp only [submitted, posted_cons st rest, List.countP_append]
    omega

theorem run_count_le (cfg : Config) (a : Nat) :
    ∀ (steps : List Step) (s : PoolState),
      scheduled (run cfg s steps) a + pending (run cfg s steps) a ≤
        scheduled s a + pending s a + submitted steps a := by
  intro steps
  induction steps with
  | nil => intro s; simp [run, submitted, posted]
  | cons st rest ih =>
    intro s
    cases hs : s.aborted with
    | true =>
      rw [run_of_aborted cfg (st :: rest) s hs]
      omega
    | false =>
      rw [run_cons]
      have h1 := ih (step cfg s st)
      have h2 := step_count cfg s st a hs
      have h3 : submitted (st :: rest) a = submitted [st] a + submitted rest a := by
        simp only [submitted, posted_cons st rest, List.countP_append]
      omega

theorem sameRequest_refl (x : AsyncReqInfo) : sameRequest x x := ⟨rfl, rfl, rfl⟩

theorem sameRequest_trans {x y z : AsyncReqInfo} (h1 : sameRequest x y)
    (h2 : sameRequest y z) : sameRequest x z :=
  ⟨h1.1.trans h2.1, h1.2.1.trans h2.2.1, h1.2.2.trans h2.2.2⟩

theorem provenance_mono {s : PoolState} {R R2 : List AsyncReqInfo}
    (h : Provenance s R) (hsub : ∀ r ∈ R, r ∈ R2) : Provenance s R2 := by
  obtain ⟨he, hb, ha⟩ := h
  refine ⟨?_, ?_, ?_⟩
  · intro e hm
    obtain ⟨h1, r, hr, hs⟩ := he e hm
    exact ⟨h1, r, hsub r hr, hs⟩
  · intro b hm
    obtain ⟨r, hr, hs⟩ := hb b hm
    exact ⟨r, hsub r hr, hs⟩
  · intro q hm
    obtain ⟨r, hr, hs⟩ := ha q hm
    exact ⟨r, hsub r hr, hs⟩

theorem provenance_post_event {s : PoolState} {R : List AsyncReqInfo} (req r0 : AsyncReqInfo)
    (h : Provenance s R) (hr : r0 ∈ R) (hs : sameRequest req r0) :
    Provenance (post_event s req) R := by
  obtain ⟨he, hb, ha⟩ := h
  refine ⟨?_, hb, ha⟩
  intro e hm
  simp only [post_event, List.mem_append, List.mem_singleton] at hm
  rcases hm with hm | hm
  · exact he e hm
  · subst hm
    exact ⟨rfl, r0, hr, hs⟩

theorem step_provenance (cfg : Config) (s : PoolState) (st : Step) (R : List AsyncReqInfo)
    (h : Provenance s R) : Provenance (step cfg s st) (R ++ posted [st]) := by
  have hmono : Provenance s (R ++ posted [st]) :=
    provenance_mono h (fun r hr => List.mem_append_left _ hr)
  cases hs : s.aborted with
  | true => rw [step_of_aborted cfg s st hs]; exact hmono
  | false =>
  rw [step_of_alive cfg s st hs]
  cases st with
  | post req env =>
    have hreq : req ∈ R ++ posted [Step.post req env] := by simp [posted]
    simp only [async_req_post]
    split
    · split
      · exact provenance_post_event _ req hmono hreq ⟨rfl, rfl, rfl⟩
      · obtain ⟨he, hb, ha⟩ := hmono
        refine ⟨he, hb, ?_⟩
        intro q hq
        simp only [List.mem_append, List.mem_singleton] at hq
        rcases hq with hq | hq
        · exact ha q hq
        · exact ⟨req, hreq, hq ▸ sameRequest_refl _⟩
    · split
      · split
        · exact provenance_post_event _ req hmono hreq ⟨rfl, rfl, rfl⟩
        · obtain ⟨he, hb, ha⟩ := hmono
          refine ⟨he, ?_, ha⟩
          intro b hq
          simp only [List.mem_append, List.mem_singleton] at hq
          rcases hq with hq | hq
          · exact hb b hq
          · exact ⟨req, hreq, hq ▸ sameRequest_refl _⟩
      · obtain ⟨he, hb, ha⟩ := hmono
        refine ⟨he, ?_, ha⟩
        intro b hq
        simp only [List.mem_append, List.mem_singleton] at hq
        rcases hq with hq | hq
        · exact hb b hq
        · exact ⟨req, hreq, hq ▸ sameRequest_refl _⟩
  | complete wt sys =>
    dsimp only
    rcases worker_iteration_cases cfg s wt sys with hc | hc
    · rw [hc]
      exact hmono
    · rw [hc]
      simp only [worker_complete]
      cases ht : take_busy wt s.busy with
      | none => exact hmono
      | some pr =>
        obtain ⟨r, rest⟩ := pr
        obtain ⟨_, hm, hsub, _⟩ := take_busy_some wt (fun _ => true) s.busy r rest ht
        obtain ⟨r0, hr0, hs0⟩ := hmono.2.1 (wt, r) hm
        have hp : Provenance (post_event s (worker_thread_handler cfg r sys).req)
            (R ++ posted [Step.complete wt sys]) :=
          provenance_post_event _ r0 hmono hr0
            (sameRequest_trans (worker_thread_handler_same cfg r sys) hs0)
        obtain ⟨he, hb, ha⟩ := hp
        exact ⟨he, fun b hb2 => hb b (hsub b hb2), ha⟩
  | aioDone addr ret err =>
    simp only [aio_done]
    cases ht : take_aio addr s.aio with
    | none => exact hmono
    | some pr =>
      obtain ⟨r, rest⟩ := pr
      obtain ⟨hm, hsub, _⟩ := take_aio_some addr (fun _ => true) s.aio r rest ht
      obtain ⟨r0, hr0, hs0⟩ := hmono.2.2 r hm
      have hrest : Provenance { s with aio := rest } (R ++ posted [Step.aioDone addr ret err]) :=
        ⟨hmono.1, hmono.2.1, fun q hq => hmono.2.2 q (hsub q hq)⟩
      exact provenance_post_event _ r0 hrest hr0
        (sameRequest_trans (aio_done_req_same cfg r ret err) hs0)

theorem run_provenance (cfg : Config) :
    ∀ (steps : List Step) (s : PoolState) (R : List AsyncReqInfo),
      Provenance s R → Provenance (run cfg s steps) (R ++ posted steps) := by
  intro steps
  induction steps with
  | nil => intro s R h; simpa [run, posted] using h
  | cons st rest ih =>
    intro s R h
    have h1 := ih (step cfg s st) (R ++ posted [st]) (step_provenance cfg s st R h)
    rw [List.append_assoc, ← posted_cons] at h1
    simpa [run] using h1

/-! ### Every worker holds at most one request -/

theorem take_busy_perm (wt : Nat) :
    ∀ (l : List (Nat × AsyncReqInfo)) (r : AsyncReqInfo) (rest : List (Nat × AsyncReqInfo)),
      take_busy wt l = some (r, rest) →
        (l.map Prod.fst).Perm (wt :: rest.map Prod.fst) := by
  intro l
  induction l with
  | nil => intro r rest h; simp [take_busy] at h
  | cons b tl ih =>
    intro r rest h
    obtain ⟨w, q⟩ := b
    unfold take_busy at h
    by_cases hw : w = wt
    · simp only [hw, if_true, Option.some.injEq, Prod.mk.injEq] at h
      obtain ⟨_, h2⟩ := h
      subst h2 hw
      exact List.Perm.refl _
    · simp only [hw, if_false] at h
      cases ht : take_busy wt tl with
      | none => simp [ht] at h
      | some pr =>
        obtain ⟨r1, rest1⟩ := pr
        simp only [ht, Option.some.injEq, Prod.mk.injEq] at h
        obtain ⟨h1, h2⟩ := h
        subst h1 h2
        have hp := ih r1 rest1 ht
        exact (List.Perm.cons w hp).trans (List.Perm.swap wt w _)

theorem take_busy_of_mem (wt : Nat) :
    ∀ (l : List (Nat × AsyncReqInfo)) (r : AsyncReqInfo),
      (l.map Prod.fst).Nodup → (wt, r) ∈ l → ∃ rest, take_busy wt l = some (r, rest) := by
  intro l
  induction l with
  | nil => intro r _ hm; simp at hm
  | cons b tl ih =>
    intro r hn hm
    obtain ⟨w, q⟩ := b
    simp only [List.map_cons, List.nodup_cons] at hn
    obtain ⟨hnot, hn2⟩ := hn
    rcases List.mem_cons.mp hm with heq | htl
    · simp only [Prod.mk.injEq] at heq
      obtain ⟨h1, h2⟩ := heq
      subst h1 h2
      exact ⟨tl, by simp [take_busy]⟩
    · have hwt : wt ∈ tl.map Prod.fst := List.mem_map.mpr ⟨(wt, r), htl, rfl⟩
      have hne : ¬ w = wt := by
        intro h
        exact hnot (h ▸ hwt)
      obtain ⟨rest1, h1⟩ := ih r hn2 htl
      exact ⟨(w, q) :: rest1, by simp [take_busy, hne, h1]⟩

theorem take_aio_of_mem :
    ∀ (l : List AsyncReqInfo) (r : AsyncReqInfo), r ∈ l →
      ∃ q rest, take_aio r.addr l = some (q, rest) ∧ q.addr = r.addr := by
  intro l
  induction l with
  | nil => intro r hm; simp at hm
  | cons b tl ih =>
    intro r hm
    by_cases hb : b.addr = r.addr
    · exact ⟨b, tl, by simp [take_aio, hb], hb⟩
    · rcases List.mem_cons.mp hm with heq | htl
      · exact absurd (heq ▸ rfl) hb
      · obtain ⟨q, rest, h1, h2⟩ := ih r htl
        exact ⟨q, b :: rest, by simp [take_aio, hb, h1], h2⟩

theorem step_workers (cfg : Config) (s : PoolState) (st : Step) (h : WorkersOk s) :
    WorkersOk (step cfg s st) := by
  cases hs : s.aborted with
  | true => rw [step_of_aborted cfg s st hs]; exact h
  | false =>
  rw [step_of_alive cfg s st hs]
  obtain ⟨hn, hb⟩ := h
  cases st with
  | post req env =>
    simp only [async_req_post, post_event]
    split
    · split
      · exact ⟨hn, hb⟩
      · exact ⟨hn, hb⟩
    · split
      · rename_i hnil
        split
        · exact ⟨hn, hb⟩
        · simp only [workers, hnil, List.nil_append] at hn hb
          have hfresh : s.created ∉ s.busy.map Prod.fst := fun hm =>
            absurd (hb _ hm) (Nat.lt_irrefl _)
          refine ⟨?_, ?_⟩
          · simp only [workers, hnil, List.nil_append, List.map_append, List.map_cons,
              List.map_nil]
            exact List.Nodup.append hn (List.nodup_singleton _)
              (by
                intro a ha1 ha2
                rw [List.mem_singleton] at ha2
                exact hfresh (ha2 ▸ ha1))
          · intro w hw
            simp only [workers, hnil, List.nil_append, List.map_append, List.map_cons,
              List.map_nil, List.mem_append, List.mem_singleton] at hw
            rcases hw with hw | hw
            · exact Nat.lt_succ_of_lt (hb w hw)
            · rw [hw]; exact Nat.lt_succ_self _
      · rename_i wt rest hcons
        have hperm : (rest ++ (s.busy ++ [(wt, req)]).map Prod.fst).Perm (workers s) := by
          simp only [workers, hcons, List.map_append, List.map_cons, List.map_nil,
            ← List.append_assoc]
          exact List.perm_append_singleton wt _
        refine ⟨?_, ?_⟩
        · simp only [workers]
          exact (List.Perm.nodup_iff hperm).mpr hn
        · intro w hw
          simp only [workers] at hw
          exact hb w ((List.Perm.mem_iff hperm).mp hw)
  | complete wt sys =>
    dsimp only
    rcases worker_iteration_cases cfg s wt sys with hc | hc
    · rw [hc]; exact ⟨hn, hb⟩
    · rw [hc]
      simp only [worker_complete]
      cases ht : take_busy wt s.busy with
      | none => exact ⟨hn, hb⟩
      | some pr =>
        obtain ⟨r, rest⟩ := pr
        have hp := take_busy_perm wt s.busy r rest ht
        have hperm : ((s.wtlist ++ [wt]) ++ rest.map Prod.fst).Perm (workers s) := by
          simp only [workers, List.append_assoc, List.singleton_append]
          exact List.Perm.append_left _ hp.symm
        refine ⟨?_, ?_⟩
        · simp only [workers, post_event]
          exact (List.Perm.nodup_iff hperm).mpr hn
        · intro w hw
          simp only [workers, post_event] at hw
          exact hb w ((List.Perm.mem_iff hperm).mp hw)
  | aioDone addr ret err =>
    simp only [aio_done]
    cases ht : take_aio addr s.aio with
    | none => exact ⟨hn, hb⟩
    | some pr => exact ⟨hn, hb⟩

theorem run_workers (cfg : Config) :
    ∀ (steps : List Step) (s : PoolState), WorkersOk s → WorkersOk (run cfg s steps) := by
  intro steps
  induction steps with
  | nil => intro s h; exact h
  | cons st rest ih =>
    intro s h
    rw [run_cons]
    exact ih _ (step_workers cfg s st h)

theorem workers_ini : WorkersOk ini_asyncreq := by
  refine ⟨?_, ?_⟩
  · simp [workers, ini_asyncreq]
  · intro w hw
    simp [workers, ini_asyncreq] at hw

/-- A worker that holds a request and whose pass fails no `assert` schedules
the completion of that request and gives the request up. -/
theorem complete_schedules (cfg : Config) (s : PoolState) (wt : Nat) (r : AsyncReqInfo)
    (sys : SysResult) (hs : s.aborted = false) (hw : WorkersOk s) (hm : (wt, r) ∈ s.busy)
    (hp : (worker_thread_handler cfg r sys).aborted = false) :
    (step cfg s (.complete wt sys)).events =
        s.events ++ [{ handler := r.done, arg := (worker_thread_handler cfg r sys).req }] ∧
    (step cfg s (.complete wt sys)).aborted = false ∧
    wt ∈ (step cfg s (.complete wt sys)).wtlist ∧
    scheduled (step cfg s (.complete wt sys)) r.addr = scheduled s r.addr + 1 ∧
    pending (step cfg s (.complete wt sys)) r.addr + 1 = pending s r.addr := by
  have hn : (s.busy.map Prod.fst).Nodup := (List.nodup_append.mp hw.1).2.1
  obtain ⟨rest, ht⟩ := take_busy_of_mem wt s.busy r hn hm
  have hcount := step_count cfg s (.complete wt sys) r.addr hs
  have hev : (step cfg s (.complete wt sys)).events =
      s.events ++ [{ handler := r.done, arg := (worker_thread_handler cfg r sys).req }] := by
    rw [step_of_alive cfg s _ hs]
    simp [worker_iteration, worker_aborts, ht, hp, worker_complete, post_event,
      (worker_thread_handler_same cfg r sys).2.1]
  have hsched : scheduled (step cfg s (.complete wt sys)) r.addr = scheduled s r.addr + 1 := by
    simp [scheduled, hev, List.countP_append, (worker_thread_handler_same cfg r sys).1]
  refine ⟨hev, ?_, ?_, hsched, ?_⟩
  · rw [step_of_alive cfg s _ hs]
    simp [worker_iteration, worker_aborts, ht, hp, worker_complete, post_event, hs]
  · rw [step_of_alive cfg s _ hs]
    simp [worker_iteration, worker_aborts, ht, hp, worker_complete, post_event]
  · simp only [submitted, posted, List.countP_nil] at hcount
    omega

/-- The notification of an outstanding native request schedules its
completion and the request is no longer outstanding. -/
theorem aio_done_schedules (cfg : Config) (s : PoolState) (r : AsyncReqInfo) (ret err : Int)
    (hs : s.aborted = false) (hm : r ∈ s.aio) :
    (∃ q ∈ s.aio, q.addr = r.addr ∧
      (step cfg s (.aioDone r.addr ret err)).events =
        s.events ++ [{ handler := q.done, arg := aio_done_req cfg q ret err }]) ∧
    scheduled (step cfg s (.aioDone r.addr ret err)) r.addr = scheduled s r.addr + 1 ∧
    pending (step cfg s (.aioDone r.addr ret err)) r.addr + 1 = pending s r.addr := by
  obtain ⟨q, rest, ht, hq⟩ := take_aio_of_mem s.aio r hm
  obtain ⟨hqm, _, _⟩ := take_aio_some r.addr (fun _ => true) s.aio q rest ht
  have hcount := step_count cfg s (.aioDone r.addr ret err) r.addr hs
  have hev : (step cfg s (.aioDone r.addr ret err)).events =
      s.events ++ [{ handler := q.done, arg := aio_done_req cfg q ret err }] := by
    rw [step_of_alive cfg s _ hs]
    simp [aio_done, ht, post_event, (aio_done_req_same cfg q ret err).2.1]
  have hsched : scheduled (step cfg s (.aioDone r.addr ret err)) r.addr =
      scheduled s r.addr + 1 := by
    simp [scheduled, hev, List.countP_append, (aio_done_req_same cfg q ret err).1, hq]
  refine ⟨⟨q, hqm, hq, hev⟩, hsched, ?_⟩
  simp only [submitted, posted, List.countP_nil] at hcount
  omega

/-- Without `assert`s no pass aborts; with them, a pass over a request of a
kind that tests the member it stored into aborts only if the platform breaks
its contract. -/
theorem pass_not_aborted (cfg : Config) (req : AsyncReqInfo) (sys : SysResult) :
    (cfg.asserts = false → (worker_thread_handler cfg req sys).aborted = false) ∧
    (sys.lawful → req.type ≠ .AsyncReqConnect → req.type ≠ .AsyncReqWaitpid →
      req.type ≠ .AsyncReqSelect → (worker_thread_handler cfg req sys).aborted = false) := by
  constructor
  · intro ha
    have hc : ∀ (r : AsyncReqInfo) (v e : Int), (capture_errno cfg r v e).2 = false := by
      intro r v e
      unfold capture_errno
      split <;> simp [ha]
    unfold worker_thread_handler
    cases ht : req.type <;> simp only [ht] <;> try split
    all_goals simp [hc]
  · intro hl h1 h2 h3
    unfold SysResult.lawful at hl
    unfold worker_thread_handler
    cases ht : req.type <;> simp only [ht] at h1 h2 h3 ⊢ <;>
      first
      | exact absurd rfl h1
      | exact absurd rfl h2
      | exact absurd rfl h3
      | (by_cases hr : sys.rval = -1
         · simp [capture_errno, Payload.store, hr, hl hr]
         · simp [capture_errno, Payload.store, hr])

theorem run_alive_without_asserts (cfg : Config) (ha : cfg.asserts = false) :
    ∀ (steps : List Step) (s : PoolState), s.aborted = false →
      (run cfg s steps).aborted = false := by
  intro steps
  induction steps with
  | nil => intro s h; exact h
  | cons st rest ih =>
    intro s h
    rw [run_cons]
    apply ih
    rw [step_of_alive cfg s st h]
    cases st with
    | post req env =>
      simp only [async_req_post, post_event]
      split
      · split <;> exact h
      · split
        · split <;> exact h
        · exact h
    | complete wt sys =>
      have hno : worker_aborts cfg s wt sys = false := by
        unfold worker_aborts
        cases ht : take_busy wt s.busy with
        | none => rfl
        | some pr => exact (pass_not_aborted cfg pr.1 sys).1 ha
      simp only [worker_iteration, hno, Bool.false_eq_true, if_false, worker_complete]
      cases ht : take_busy wt s.busy with
      | none => exact h
      | some pr => exact h
    | aioDone addr ret err =>
      simp only [aio_done]
      cases ht : take_aio addr s.aio with
      | none => exact h
      | some pr => exact h

/-- C1 (the code departs from it): in every run of the pool from its initial
state, no request has more completions scheduled than it had submissions, every
scheduled event carries the handler of the request it has as argument, and
that request was submitted.  While the process lives, completions scheduled
plus requests still pending equal submissions; a worker that finishes its
request, the notification `aio_done`, a failed thread creation and a failed
native initiation each schedule `post_event(req->done, req)` at once, and the
other submissions leave the request pending.  But a failed `assert(req->error)`
aborts the process before `post_event`: no pass aborts when `assert` is
compiled out, nor for the kinds that test the member they stored into as long
as the platform sets `errno` on failure, yet a `waitpid` that succeeds with
`errno` 0 on a request whose record reads -1 through `u.con.rval` aborts, and
the completion of that request is never scheduled. -/
theorem C1_completion_scheduled_once_unless_assert_aborts (cfg : Config) (steps : List Step) :
    (∀ a : Nat,
      scheduled (reached cfg steps) a + pending (reached cfg steps) a ≤ submitted steps a) ∧
    ((reached cfg steps).aborted = false → ∀ a : Nat,
      scheduled (reached cfg steps) a + pending (reached cfg steps) a = submitted steps a) ∧
    (∀ e ∈ (reached cfg steps).events,
      e.handler = e.arg.done ∧ ∃ req ∈ posted steps, sameRequest e.arg req) ∧
    (∀ (wt : Nat) (r : AsyncReqInfo) (sys : SysResult),
      (reached cfg steps).aborted = false → (wt, r) ∈ (reached cfg steps).busy →
      (worker_thread_handler cfg r sys).aborted = false →
        (step cfg (reached cfg steps) (.complete wt sys)).events =
          (reached cfg steps).events ++
            [{ handler := r.done, arg := (worker_thread_handler cfg r sys).req }] ∧
        (step cfg (reached cfg steps) (.complete wt sys)).aborted = false ∧
        wt ∈ (step cfg (reached cfg steps) (.complete wt sys)).wtlist ∧
        scheduled (step cfg (reached cfg steps) (.complete wt sys)) r.addr =
          scheduled (reached cfg steps) r.addr + 1 ∧
        pending (step cfg (reached cfg steps) (.complete wt sys)) r.addr + 1 =
          pending (reached cfg steps) r.addr) ∧
    (∀ (r : AsyncReqInfo) (ret err : Int),
      (reached cfg steps).aborted = false → r ∈ (reached cfg steps).aio →
        (∃ q ∈ (reached cfg steps).aio, q.addr = r.addr ∧
          (step cfg (reached cfg steps) (.aioDone r.addr ret err)).events =
            (reached cfg steps).events ++
              [{ handler := q.done, arg := aio_done_req cfg q ret err }]) ∧
        scheduled (step cfg (reached cfg steps) (.aioDone r.addr ret err)) r.addr =
          scheduled (reached cfg steps) r.addr + 1 ∧
        pending (step cfg (reached cfg steps) (.aioDone r.addr ret err)) r.addr + 1 =
          pending (reached cfg steps) r.addr) ∧
    (∀ (req : AsyncReqInfo) (env : PostEnv), (reached cfg steps).aborted = false →
        scheduled (step cfg (reached cfg steps) (.post req env)) req.addr +
            pending (step cfg (reached cfg steps) (.post req env)) req.addr =
          scheduled (reached cfg steps) req.addr + pending (reached cfg steps) req.addr + 1) ∧
    (∀ (req : AsyncReqInfo) (env : PostEnv), (reached cfg steps).aborted = false →
      cfg.enableAio = true →
      (req.type = .AsyncReqSeekRead ∨ req.type = .AsyncReqSeekWrite) → env.aio_res < 0 →
        (step cfg (reached cfg steps) (.post req env)).events =
          (reached cfg steps).events ++
            [{ handler := req.done,
               arg := { req with
                 u := req.u.store cfg.layout .fio_rval (-1), error := env.errno } }]) ∧
    (∀ (req : AsyncReqInfo) (env : PostEnv), (reached cfg steps).aborted = false →
      ¬ (cfg.enableAio = true ∧
          (req.type = .AsyncReqSeekRead ∨ req.type = .AsyncReqSeekWrite)) →
      (reached cfg steps).wtlist = [] → env.create_error ≠ 0 →
        (step cfg (reached cfg steps) (.post req env)).events =
          (reached cfg steps).events ++
            [{ handler := req.done, arg := { req with error := env.create_error } }]) ∧
    (cfg.asserts = false → (reached cfg steps).aborted = false) ∧
    (∀ (req : AsyncReqInfo) (sys : SysResult), sys.lawful →
      req.type ≠ .AsyncReqConnect → req.type ≠ .AsyncReqWaitpid →
      req.type ≠ .AsyncReqSelect → (worker_thread_handler cfg req sys).aborted = false) ∧
    ((reached posixConfig
        [Step.post staleWaitpid PostEnv.ok, Step.complete 0 ⟨1234, 0, none⟩]).aborted = true ∧
     (reached posixConfig
        [Step.post staleWaitpid PostEnv.ok, Step.complete 0 ⟨1234, 0, none⟩]).events = [] ∧
     ∀ more : List Step,
      (reached posixConfig
        ([Step.post staleWaitpid PostEnv.ok, Step.complete 0 ⟨1234, 0, none⟩] ++
          more)).events = []) := by
  have hini : Provenance ini_asyncreq [] := by
    refine ⟨?_, ?_, ?_⟩ <;> intro x hx <;> simp [ini_asyncreq] at hx
  have hW : WorkersOk (reached cfg steps) := run_workers cfg steps ini_asyncreq workers_ini
  refine ⟨?_, ?_, ?_, ?_, ?_, ?_, ?_, ?_, ?_, ?_, ?_⟩
  · intro a
    have h := run_count_le cfg a steps ini_asyncreq
    simpa [reached, scheduled, pending, ini_asyncreq] using h
  · intro halive a
    have h := run_count cfg a steps ini_asyncreq halive
    simpa [reached, scheduled, pending, ini_asyncreq] using h
  · have h := run_provenance cfg steps ini_asyncreq [] hini
    simpa [reached] using h.1
  · intro wt r sys hs hm hp
    exact complete_schedules cfg _ wt r sys hs hW hm hp
  · intro r ret err hs hm
    exact aio_done_schedules cfg _ r ret err hs hm
  · intro req env hs
    have h := step_count cfg (reached cfg steps) (.post req env) req.addr hs
    simpa [submitted, posted] using h
  · intro req env hs ha ht hres
    rw [step_of_alive cfg _ _ hs]
    simp [async_req_post, ha, ht, hres, post_event]
  · intro req env hs hna hl hc
    rw [step_of_alive cfg _ _ hs]
    simp only [async_req_post, if_neg hna, hl, post_event]
    simp [hc]
  · intro ha
    exact run_alive_without_asserts cfg ha steps ini_asyncreq rfl
  · intro req sys hl h1 h2 h3
    exact (pass_not_aborted cfg req sys).2 hl h1 h2 h3
  · have hab : (reached posixConfig
        [Step.post staleWaitpid PostEnv.ok, Step.complete 0 ⟨1234, 0, none⟩]).aborted = true := by
      decide
    have hev : (reached posixConfig
        [Step.post staleWaitpid PostEnv.ok, Step.complete 0 ⟨1234, 0, none⟩]).events = [] := by
      decide
    refine ⟨hab, hev, ?_⟩
    intro more
    unfold reached at hab hev ⊢
    rw [run_append, run_of_aborted posixConfig more _ hab]
    exact hev

/-- A witness of C1: the worker created for a read request, once its `read`
has returned 4, schedules the completion of that request. -/
theorem C1_completion_scheduled_once_unless_assert_aborts_witness :
    (step posixConfig (reached posixConfig [Step.post (mkReq 1 7 .AsyncReqRead) PostEnv.ok])
        (.complete 0 ⟨4, 0, none⟩)).events =
      (reached posixConfig [Step.post (mkReq 1 7 .AsyncReqRead) PostEnv.ok]).events ++
        [{ handler := (mkReq 1 7 .AsyncReqRead).done,
           arg := (worker_thread_handler posixConfig (mkReq 1 7 .AsyncReqRead)
             ⟨4, 0, none⟩).req }] :=
  ((C1_completion_scheduled_once_unless_assert_aborts posixConfig
    [Step.post (mkReq 1 7 .AsyncReqRead) PostEnv.ok]).2.2.2.1 0 (mkReq 1 7 .AsyncReqRead)
      ⟨4, 0, none⟩ (by decide) (by decide) (by decide)).1

/-! ### Worker accounting -/

/-- How one transition changes the length of the free list, the number of busy
workers and the number of threads created. -/
theorem step_shape (cfg : Config) (s : PoolState) (st : Step) :
    ((step cfg s st).wtlist.length = s.wtlist.length ∧
        (step cfg s st).busy.length = s.busy.length ∧
        (step cfg s st).created = s.created) ∨
    ((posted [st]).length = 1 ∧ s.wtlist.length = 0 ∧ (step cfg s st).wtlist.length = 0 ∧
        (step cfg s st).busy.length = s.busy.length + 1 ∧
        (step cfg s st).created = s.created + 1) ∨
    ((posted [st]).length = 1 ∧ (step cfg s st).wtlist.length + 1 = s.wtlist.length ∧
        (step cfg s st).busy.length = s.busy.length + 1 ∧
        (step cfg s st).created = s.created) ∨
    ((posted [st]).length = 0 ∧ (step cfg s st).wtlist.length = s.wtlist.length + 1 ∧
        (step cfg s st).busy.length + 1 = s.busy.length ∧
        (step cfg s st).created = s.created) := by
  cases hs : s.aborted with
  | true => rw [step_of_aborted cfg s st hs]; simp
  | false =>
  rw [step_of_alive cfg s st hs]
  cases st with
  | post req env =>
    simp only [async_req_post, posted, post_event]
    split
    · split <;> simp
    · split
      · rename_i hnil
        split
        · simp
        · right; left
          simp [hnil]
      · rename_i wt rest hcons
        right; right; left
        simp [hcons]
  | complete wt sys =>
    dsimp only
    rcases worker_iteration_cases cfg s wt sys with hc | hc
    · rw [hc]; simp
    · rw [hc]
      simp only [worker_complete, posted, post_event]
      cases ht : take_busy wt s.busy with
      | none => simp
      | some pr =>
        obtain ⟨r, rest⟩ := pr
        obtain ⟨hl, _, _, _⟩ := take_busy_some wt (fun _ => true) s.busy r rest ht
        right; right; right
        simp [hl]
  | aioDone addr ret err =>
    simp only [aio_done, posted, post_event]
    cases ht : take_aio addr s.aio with
    | none => simp
    | some pr => simp

theorem posted_length_le_one (st : Step) : (posted [st]).length ≤ 1 := by
  cases st <;> simp [posted]

theorem peak_ge_start (cfg : Config) (s : PoolState) (steps : List Step) :
    inFlight s ≤ peak cfg s steps := by
  cases steps with
  | nil => simp [peak]
  | cons st rest => simp [peak]

/-- Workers are never destroyed: every thread created is idle or busy. -/
theorem run_accounting (cfg : Config) :
    ∀ (steps : List Step) (s : PoolState),
      s.wtlist.length + s.busy.length = s.created →
        (run cfg s steps).wtlist.length + (run cfg s steps).busy.length =
          (run cfg s steps).created := by
  intro steps
  induction steps with
  | nil => intro s h; simpa [run] using h
  | cons st rest ih =>
    intro s h
    rw [run_cons]
    apply ih
    rcases step_shape cfg s st with h1 | h1 | h1 | h1 <;> omega

/-- The number of threads created is bounded by the peak number of requests in
flight (or by the number of threads there were at the start). -/
theorem run_created_le_peak (cfg : Config) :
    ∀ (steps : List Step) (s : PoolState),
      s.wtlist.length + s.busy.length = s.created →
        (run cfg s steps).created ≤ max s.created (peak cfg s steps) := by
  intro steps
  induction steps with
  | nil => intro s _; simp [run]
  | cons st rest ih =>
    intro s h
    rw [run_cons]
    have hJ : (step cfg s st).wtlist.length + (step cfg s st).busy.length =
        (step cfg s st).created := by
      rcases step_shape cfg s st with h1 | h1 | h1 | h1 <;> omega
    have h2 := ih (step cfg s st) hJ
    have h3 := peak_ge_start cfg (step cfg s st) rest
    have h4 : peak cfg s (st :: rest) = max (inFlight s) (peak cfg (step cfg s st) rest) := rfl
    simp only [inFlight] at h3 h4
    rw [h4]
    rcases step_shape cfg s st with h1 | h1 | h1 | h1 <;> omega

theorem run_created_mono (cfg : Config) :
    ∀ (steps : List Step) (s : PoolState), s.created ≤ (run cfg s steps).created := by
  intro steps
  induction steps with
  | nil => intro s; simp [run]
  | cons st rest ih =>
    intro s
    rw [run_cons]
    have h2 := ih (step cfg s st)
    rcases step_shape cfg s st with h1 | h1 | h1 | h1 <;> omega

/-- The peak number of requests in flight is bounded by the number of threads
created at the end. -/
theorem run_peak_le_created (cfg : Config) :
    ∀ (steps : List Step) (s : PoolState),
      s.wtlist.length + s.busy.length = s.created →
        peak cfg s steps ≤ (run cfg s steps).created := by
  intro steps
  induction steps with
  | nil => intro s h; simp only [peak, run, List.foldl_nil, inFlight]; omega
  | cons st rest ih =>
    intro s h
    rw [run_cons]
    have hJ : (step cfg s st).wtlist.length + (step cfg s st).busy.length =
        (step cfg s st).created := by
      rcases step_shape cfg s st with h1 | h1 | h1 | h1 <;> omega
    have h2 := ih (step cfg s st) hJ
    have h3 := peak_ge_start cfg (step cfg s st) rest
    have h4 : peak cfg s (st :: rest) = max (inFlight s) (peak cfg (step cfg s st) rest) := rfl
    have h6 := run_created_mono cfg rest (step cfg s st)
    simp only [inFlight] at h3 h4
    rw [h4]
    rcases step_shape cfg s st with h1 | h1 | h1 | h1 <;> omega

theorem run_created_le_posts (cfg : Config) :
    ∀ (steps : List Step) (s : PoolState),
      (run cfg s steps).created ≤ s.created + (posted steps).length := by
  intro steps
  induction steps with
  | nil => intro s; simp [run]
  | cons st rest ih =>
    intro s
    rw [run_cons, posted_cons, List.length_append]
    have h2 := ih (step cfg s st)
    have h5 := posted_length_le_one st
    rcases step_shape cfg s st with h1 | h1 | h1 | h1 <;> omega

theorem run_sequential_peak (cfg : Config) :
    ∀ (steps : List Step) (s : PoolState),
      sequential cfg s steps = true → inFlight s ≤ 1 → peak cfg s steps ≤ 1 := by
  intro steps
  induction steps with
  | nil => intro s _ h; simpa [peak] using h
  | cons st rest ih =>
    intro s hseq h
    have h4 : peak cfg s (st :: rest) = max (inFlight s) (peak cfg (step cfg s st) rest) := rfl
    rw [h4, max_le_iff]
    refine ⟨h, ?_⟩
    cases st with
    | post req env =>
      simp only [sequential, Bool.and_eq_true, decide_eq_true_eq] at hseq
      apply ih _ hseq.2
      have h0 := hseq.1
      simp only [inFlight] at h0 h ⊢
      rcases step_shape cfg s (Step.post req env) with h1 | h1 | h1 | h1 <;> omega
    | complete wt sys =>
      simp only [sequential] at hseq
      apply ih _ hseq
      simp only [inFlight] at h ⊢
      rcases step_shape cfg s (Step.complete wt sys) with h1 | h1 | h1 | h1 <;>
        (try simp [posted] at h1) <;> omega
    | aioDone addr ret err =>
      simp only [sequential] at hseq
      apply ih _ hseq
      simp only [inFlight] at h ⊢
      rcases step_shape cfg s (Step.aioDone addr ret err) with h1 | h1 | h1 | h1 <;>
        (try simp [posted] at h1) <;> omega

/-- No thread is created while there are at least as many idle workers as
submissions. -/
theorem run_reuses_idle (cfg : Config) :
    ∀ (steps : List Step) (s : PoolState),
      (posted steps).length ≤ s.wtlist.length → (run cfg s steps).created = s.created := by
  intro steps
  induction steps with
  | nil => intro s _; simp [run]
  | cons st rest ih =>
    intro s h
    rw [run_cons]
    rw [posted_cons, List.length_append] at h
    have h5 := posted_length_le_one st
    have h2 := ih (step cfg s st)
    rcases step_shape cfg s st with h1 | h1 | h1 | h1 <;> omega

theorem take_busy_none (wt : Nat) :
    ∀ (l : List (Nat × AsyncReqInfo)), take_busy wt l = none → ∀ r, (wt, r) ∉ l := by
  intro l
  induction l with
  | nil => intro _ r; simp
  | cons b tl ih =>
    intro h r
    obtain ⟨w, q⟩ := b
    unfold take_busy at h
    by_cases hw : w = wt
    · simp [hw] at h
    · simp only [hw, if_false] at h
      cases ht : take_busy wt tl with
      | none =>
        intro hm
        rcases List.mem_cons.mp hm with hm | hm
        · exact hw (by simpa using (congrArg Prod.fst hm).symm)
        · exact ih ht r hm
      | some pr => simp [ht] at h

/-- C4: in every run of the pool from its initial state the number of worker
threads created never exceeds the peak number of requests simultaneously in
flight; a thread is created only when the free list is empty, and a worker that
finishes its request is on the free list afterwards.  In particular: strictly
sequential submission creates at most one worker; any further run creates at
most as many workers as it submits requests; and once a first phase had `N`
requests simultaneously in flight and has fully completed, a second phase
submitting at most `N` requests creates no worker. -/
theorem C4_workers_bounded_by_peak_in_flight (cfg : Config) :
    (∀ steps : List Step,
      (run cfg ini_asyncreq steps).created ≤ peak cfg ini_asyncreq steps) ∧
    (∀ (s : PoolState) (req : AsyncReqInfo) (env : PostEnv),
      (async_req_post cfg s req env).created ≠ s.created → s.wtlist = []) ∧
    (∀ (s : PoolState) (wt : Nat) (sys : SysResult) (r : AsyncReqInfo),
      (wt, r) ∈ s.busy → wt ∈ (worker_complete cfg s wt sys).wtlist) ∧
    (∀ steps : List Step, sequential cfg ini_asyncreq steps = true →
      (run cfg ini_asyncreq steps).created ≤ 1) ∧
    (∀ first burst : List Step,
      (run cfg ini_asyncreq (first ++ burst)).created ≤
        (run cfg ini_asyncreq first).created + (posted burst).length) ∧
    (∀ (first second : List Step) (N : Nat),
      N ≤ peak cfg ini_asyncreq first →
      inFlight (run cfg ini_asyncreq first) = 0 →
      (posted second).length ≤ N →
      (run cfg ini_asyncreq (first ++ second)).created =
        (run cfg ini_asyncreq first).created) := by
  have hini : ini_asyncreq.wtlist.length + ini_asyncreq.busy.length = ini_asyncreq.created := by
    simp [ini_asyncreq]
  refine ⟨?_, ?_, ?_, ?_, ?_, ?_⟩
  · intro steps
    have h := run_created_le_peak cfg steps ini_asyncreq hini
    simpa [ini_asyncreq] using h
  · intro s req env hne
    have h := step_shape cfg { s with aborted := false } (Step.post req env)
    rw [step_of_alive cfg _ _ rfl] at h
    have hpost : async_req_post cfg { s with aborted := false } req env =
        { async_req_post cfg s req env with aborted := false } := by
      simp only [async_req_post, post_event]
      split
      · split <;> rfl
      · split
        · split <;> rfl
        · rfl
    simp only [hpost] at h
    rcases h with h1 | h1 | h1 | h1
    · exact absurd h1.2.2 hne
    · exact List.length_eq_zero.mp h1.2.1
    · exact absurd h1.2.2.2 hne
    · exact absurd h1.2.2.2 hne
  · intro s wt sys r hm
    simp only [worker_complete]
    cases ht : take_busy wt s.busy with
    | none => exact absurd hm (take_busy_none wt s.busy ht r)
    | some pr => simp [post_event]
  · intro steps hseq
    have h1 := run_created_le_peak cfg steps ini_asyncreq hini
    have h2 := run_sequential_peak cfg steps ini_asyncreq hseq (by simp [inFlight, ini_asyncreq])
    simp only [ini_asyncreq] at h1 h2 ⊢
    omega
  · intro first burst
    rw [run_append]
    exact run_created_le_posts cfg burst _
  · intro first second N hpeak hdone hposts
    rw [run_append]
    apply run_reuses_idle
    have hJ := run_accounting cfg first ini_asyncreq hini
    have hP := run_peak_le_created cfg first ini_asyncreq hini
    simp only [inFlight] at hdone
    omega

/-- A witness of C4: after a burst of two concurrent requests has completed, a
second burst of two requests creates no worker. -/
theorem C4_workers_bounded_by_peak_in_flight_witness :
    (run posixConfig ini_asyncreq
      ([Step.post (mkReq 1 7 .AsyncReqRead) PostEnv.ok,
        Step.post (mkReq 2 7 .AsyncReqRecv) PostEnv.ok,
        Step.complete 0 ⟨4, 0, none⟩, Step.complete 1 ⟨4, 0, none⟩] ++
       [Step.post (mkReq 3 7 .AsyncReqRead) PostEnv.ok,
        Step.post (mkReq 4 7 .AsyncReqRecv) PostEnv.ok])).created =
    (run posixConfig ini_asyncreq
      [Step.post (mkReq 1 7 .AsyncReqRead) PostEnv.ok,
        Step.post (mkReq 2 7 .AsyncReqRecv) PostEnv.ok,
        Step.complete 0 ⟨4, 0, none⟩, Step.complete 1 ⟨4, 0, none⟩]).created :=
  (C4_workers_bounded_by_peak_in_flight posixConfig).2.2.2.2.2
    [Step.post (mkReq 1 7 .AsyncReqRead) PostEnv.ok,
      Step.post (mkReq 2 7 .AsyncReqRecv) PostEnv.ok,
      Step.complete 0 ⟨4, 0, none⟩, Step.complete 1 ⟨4, 0, none⟩]
    [Step.post (mkReq 3 7 .AsyncReqRead) PostEnv.ok,
      Step.post (mkReq 4 7 .AsyncReqRecv) PostEnv.ok]
    2 (by decide) (by decide) (by decide)

/-! ### Results and error codes -/

/-- For the kinds whose error test reads the member the result was stored in
(all but connect, waitpid and select), the worker passes the return value and
the error through: the result member holds the return value, and the error is
`errno` when the call returned -1 and 0 otherwise, whatever the record held
before. -/
theorem worker_thread_handler_passes_through (cfg : Config) (req : AsyncReqInfo)
    (sys : SysResult) (slot : Slot) (hs : result_member req.type = some slot)
    (h1 : req.type ≠ .AsyncReqConnect) (h2 : req.type ≠ .AsyncReqWaitpid)
    (h3 : req.type ≠ .AsyncReqSelect) :
    (worker_thread_handler cfg req sys).req.u.get slot = sys.rval ∧
    (worker_thread_handler cfg req sys).req.error =
      (if sys.rval = -1 then sys.errno else 0) := by
  cases ht : req.type <;> simp only [ht, result_member, Option.some.injEq] at hs h1 h2 h3 <;>
    first
    | exact absurd rfl h1
    | exact absurd rfl h2
    | exact absurd rfl h3
    | exact absurd hs (by simp)
    | (subst hs
       by_cases hr : sys.rval = -1 <;>
         simp [worker_thread_handler, ht, capture_errno, Payload.store, Payload.get, hr])

/-- The connect case stores through `u.acc.rval` and tests `u.con.rval`: it
passes the return value and the error through when the two members share their
storage. -/
theorem worker_thread_handler_connect (cfg : Config) (req : AsyncReqInfo) (sys : SysResult)
    (ht : req.type = .AsyncReqConnect)
    (hl : cfg.layout.shares .acc_rval .con_rval = true) :
    (worker_thread_handler cfg req sys).req.u.con_rval = sys.rval ∧
    (worker_thread_handler cfg req sys).req.error =
      (if sys.rval = -1 then sys.errno else 0) := by
  by_cases hr : sys.rval = -1 <;>
    simp [worker_thread_handler, ht, capture_errno, Payload.store, hl, hr]

/-- C2 (the code departs from it): the error test of the `AsyncReqWaitpid` and
`AsyncReqSelect` cases reads `u.con.rval`, not the member the result was stored
in.  Whenever that member does not share its storage with `u.con.rval` and
`u.con.rval` does not read -1 after the call (whether or not the out-parameters
of the call reached it), a failed `waitpid` or `select` (return value -1, any
`errno`) completes, with no `assert` failing, with the return value -1 in its
result member and with error 0.  And `aio_done` never clears `req->error`: a
native request that succeeds completes with whatever error the record held at
submission. -/
theorem C2_failure_of_waitpid_select_not_captured (cfg : Config) (req : AsyncReqInfo)
    (errno : Int) (cv : Option Int) (hcon : cv.getD req.u.con_rval ≠ -1) :
    (cfg.hasWaitpid = true → cfg.layout.shares .wpid_rval .con_rval = false →
      req.type = .AsyncReqWaitpid →
        (worker_thread_handler cfg req ⟨-1, errno, cv⟩).2 = some .waitpid ∧
        (worker_thread_handler cfg req ⟨-1, errno, cv⟩).1.u.wpid_rval = -1 ∧
        (worker_thread_handler cfg req ⟨-1, errno, cv⟩).1.error = 0 ∧
        (worker_thread_handler cfg req ⟨-1, errno, cv⟩).aborted = false) ∧
    (cfg.layout.shares .select_rval .con_rval = false →
      req.type = .AsyncReqSelect →
        (worker_thread_handler cfg req ⟨-1, errno, cv⟩).2 = some .select ∧
        (worker_thread_handler cfg req ⟨-1, errno, cv⟩).1.u.select_rval = -1 ∧
        (worker_thread_handler cfg req ⟨-1, errno, cv⟩).1.error = 0 ∧
        (worker_thread_handler cfg req ⟨-1, errno, cv⟩).aborted = false) ∧
    (∀ ret err : Int, 0 ≤ ret →
        (aio_done_req cfg req ret err).u.fio_rval = ret ∧
        (aio_done_req cfg req ret err).error = req.error) := by
  refine ⟨?_, ?_, ?_⟩
  · intro hw hl ht
    cases cv with
    | none =>
      simp only [Option.getD_none] at hcon
      simp [worker_thread_handler, ht, hw, capture_errno, Payload.store, Payload.clobber, hl,
        hcon]
    | some v =>
      simp only [Option.getD_some] at hcon
      simp [worker_thread_handler, ht, hw, capture_errno, Payload.store, Payload.clobber, hl,
        hcon]
  · intro hl ht
    cases cv with
    | none =>
      simp only [Option.getD_none] at hcon
      simp [worker_thread_handler, ht, capture_errno, Payload.store, Payload.clobber, hl, hcon]
    | some v =>
      simp only [Option.getD_some] at hcon
      simp [worker_thread_handler, ht, capture_errno, Payload.store, Payload.clobber, hl, hcon]
  · intro ret err hret
    have hnot : ¬ ret < 0 := by omega
    simp [aio_done_req, Payload.store, hnot]

/-- A witness of C2: on a POSIX build, a zeroed `AsyncReqWaitpid` request whose
`waitpid` fails with `errno` 10 completes with result -1 and error 0. -/
theorem C2_failure_of_waitpid_select_not_captured_witness :
    (worker_thread_handler posixConfig (mkReq 1 7 .AsyncReqWaitpid) ⟨-1, 10, none⟩).2 =
      some .waitpid ∧
    (worker_thread_handler posixConfig (mkReq 1 7 .AsyncReqWaitpid)
      ⟨-1, 10, none⟩).1.u.wpid_rval = -1 ∧
    (worker_thread_handler posixConfig (mkReq 1 7 .AsyncReqWaitpid) ⟨-1, 10, none⟩).1.error = 0 ∧
    (worker_thread_handler posixConfig (mkReq 1 7 .AsyncReqWaitpid)
      ⟨-1, 10, none⟩).aborted = false :=
  (C2_failure_of_waitpid_select_not_captured posixConfig (mkReq 1 7 .AsyncReqWaitpid) 10 none
    (by decide)).1 rfl rfl rfl

/-! ### Requests of an unrecognized kind -/

/-- C3 as stated fails: posting a request of an unrecognized kind to the empty
pool creates a worker thread (the worker count goes from 0 to 1) and schedules
no completion at that point; and with an idle worker on the free list, the
worker is taken from the list. -/
theorem C3_unrecognized_kind_touches_pool :
    (async_req_post posixConfig ini_asyncreq (mkReq 1 7 (.other 99)) PostEnv.ok).created = 1 ∧
    (async_req_post posixConfig ini_asyncreq (mkReq 1 7 (.other 99)) PostEnv.ok).created ≠
      ini_asyncreq.created ∧
    (async_req_post posixConfig ini_asyncreq (mkReq 1 7 (.other 99)) PostEnv.ok).events = [] ∧
    (async_req_post posixConfig
      { wtlist := [0], busy := [], created := 1, aio := [], events := [], aborted := false }
      (mkReq 1 7 (.other 99)) PostEnv.ok).wtlist = [] := by
  decide

/-- C3 (amended): a request of an unrecognized kind is handed to the worker
pool like any other request, whether or not native asynchronous I/O is enabled:
the first idle worker is taken from the free list, or, when the list is empty, a
worker thread is created for it (and if that fails the request completes with
the thread-creation error).  The worker that runs it invokes no platform
routine and completes it with error `ENOSYS`, leaving its payload as it was. -/
theorem C3_unrecognized_kind_completes_with_ENOSYS (cfg : Config) (s : PoolState)
    (req : AsyncReqInfo) (env : PostEnv) (code : Nat) (ht : req.type = .other code) :
    (∀ sys : SysResult,
      worker_thread_handler cfg req sys =
        { req := { req with error := cfg.ENOSYS }, call := none, aborted := false }) ∧
    (∀ (wt : Nat) (rest : List Nat), s.wtlist = wt :: rest →
      async_req_post cfg s req env =
        { s with wtlist := rest, busy := s.busy ++ [(wt, req)] }) ∧
    (s.wtlist = [] → env.create_error = 0 →
      async_req_post cfg s req env =
        { s with busy := s.busy ++ [(s.created, req)], created := s.created + 1 }) ∧
    (s.wtlist = [] → env.create_error ≠ 0 →
      async_req_post cfg s req env = post_event s { req with error := env.create_error }) ∧
    (∀ (wt : Nat) (rest : List (Nat × AsyncReqInfo)) (sys : SysResult),
      take_busy wt s.busy = some (req, rest) →
      worker_complete cfg s wt sys =
        { s with
          events := s.events ++ [{ handler := req.done, arg := { req with error := cfg.ENOSYS } }]
          busy := rest
          wtlist := s.wtlist ++ [wt] } ∧
      worker_iteration cfg s wt sys = worker_complete cfg s wt sys) := by
  have hw : ∀ sys : SysResult,
      worker_thread_handler cfg req sys =
        { req := { req with error := cfg.ENOSYS }, call := none, aborted := false } := by
    intro sys
    simp [worker_thread_handler, ht]
  refine ⟨hw, ?_, ?_, ?_, ?_⟩
  · intro wt rest hl
    simp [async_req_post, ht, hl]
  · intro hl hc
    simp [async_req_post, ht, hl, hc]
  · intro hl hc
    simp [async_req_post, ht, hl, hc]
  · intro wt rest sys hb
    constructor
    · simp [worker_complete, hb, hw, post_event]
    · simp [worker_iteration, worker_aborts, hb, hw]

/-- A witness of C3 (amended): posted to the empty pool, a request of kind 99
gets a new worker, and that worker completes it with `ENOSYS`. -/
theorem C3_unrecognized_kind_completes_with_ENOSYS_witness :
    async_req_post posixConfig ini_asyncreq (mkReq 1 7 (.other 99)) PostEnv.ok =
      { ini_asyncreq with
        busy := ini_asyncreq.busy ++ [(ini_asyncreq.created, mkReq 1 7 (.other 99))]
        created := ini_asyncreq.created + 1 } :=
  (C3_unrecognized_kind_completes_with_ENOSYS posixConfig ini_asyncreq (mkReq 1 7 (.other 99))
    PostEnv.ok 99 rfl).2.2.1 rfl rfl

end TCF.Asyncreq

namespace TCF.Discovery

/-! ## Properties of the Locator service -/

theorem write_peer_properties_eq (ps : PeerServer) (n : Int) :
    write_peer_properties ps n =
      ((if n > 0 then [StreamOp.write_stream (chr ',')] else []) ++ peer_object ps, n + 1) := by
  simp [write_peer_properties, peer_object, List.append_assoc]

theorem iter_from_positive :
    ∀ (registry : List PeerServer) (acc : List StreamOp) (n : Int), 0 < n →
      registry.foldl
        (fun (a : List StreamOp × Int) ps =>
          ((a.1 ++ (write_peer_properties ps a.2).1, (write_peer_properties ps a.2).2)))
        (acc, n) =
      (acc ++ (registry.map (fun ps => StreamOp.write_stream (chr ',') :: peer_object ps)).flatten,
        n + registry.length) := by
  intro registry
  induction registry with
  | nil => intro acc n _; simp
  | cons ps rest ih =>
    intro acc n hn
    have hn1 : 0 < n + 1 := by omega
    have hstep : write_peer_properties ps n =
        ([StreamOp.write_stream (chr ',')] ++ peer_object ps, n + 1) := by
      rw [write_peer_properties_eq]
      simp [hn]
    rw [List.foldl_cons]
    dsimp only
    rw [hstep, ih _ _ hn1]
    simp only [List.map_cons, List.flatten_cons, List.append_assoc, List.singleton_append,
      List.length_cons, Nat.cast_add, Nat.cast_one, Prod.mk.injEq, true_and]
    omega

theorem separated_cons (x : List StreamOp) :
    ∀ rest : List (List StreamOp),
      separated (x :: rest) =
        x ++ (rest.map (fun y => StreamOp.write_stream (chr ',') :: y)).flatten := by
  intro rest
  induction rest generalizing x with
  | nil => simp [separated]
  | cons y tl ih =>
    simp [separated, ih y]

/-- The iteration of `command_get_peers` writes the objects of all the peers
of the registry, separated by commas, and counts them. -/
theorem peer_server_iter_eq (registry : List PeerServer) :
    peer_server_iter registry 0 =
      (separated (registry.map peer_object), (registry.length : Int)) := by
  cases registry with
  | nil => simp [peer_server_iter, separated]
  | cons ps rest =>
    have hstep : write_peer_properties ps 0 = (peer_object ps, 1) := by
      rw [write_peer_properties_eq]
      simp
    have h := iter_from_positive rest (peer_object ps) 1 (by omega)
    unfold peer_server_iter
    rw [List.foldl_cons]
    dsimp only
    rw [hstep, List.nil_append, h, List.map_cons, separated_cons]
    simp only [List.map_map, List.length_cons, Nat.cast_add, Nat.cast_one, Prod.mk.injEq]
    refine ⟨?_, by omega⟩
    congr 2

/-! ### getPeers -/

/-- C9 (the code departs from it): for every registry, a well-formed `getPeers`
command is answered with "R", the token, error 0 and the JSON array holding one
object per peer of the registry, whether or not the peer is marked
discoverable, each object starting with its "ID" field followed by one field per
property, separated by single commas, `[]` when the registry is empty.  With the
registry holding the discoverable peer A and the peer C that is not marked
discoverable, the array has the two elements A and C, not the single element
A. -/
theorem C9_get_peers_lists_every_registry_peer (K : Consts) (registry : List PeerServer)
    (token : String) (pc : Int) :
    (command_get_peers K registry token K.MARKER_EOM pc).calls =
      get_peers_reply K token registry ∧
    (command_get_peers K registry token K.MARKER_EOM pc).raised = none ∧
    [peerA, peerC].filter (discoverable sampleConsts) = [peerA] ∧
    (command_get_peers sampleConsts [peerA, peerC] "t1" sampleConsts.MARKER_EOM 0).calls =
      get_peers_reply sampleConsts "t1" [peerA, peerC] ∧
    (command_get_peers sampleConsts [peerA, peerC] "t1" sampleConsts.MARKER_EOM 0).calls ≠
      get_peers_reply sampleConsts "t1" ([peerA, peerC].filter (discoverable sampleConsts)) := by
  refine ⟨?_, ?_, by decide, by decide, by decide⟩
  · simp [command_get_peers, peer_server_iter_eq, get_peers_reply, json_array]
  · simp [command_get_peers]

/-! ### Peer events -/

/-- C10 as stated fails: for a peer that is not marked discoverable, a
heartbeat or removed notification writes nothing at all to the broadcast
stream. -/
theorem C10_hidden_peer_heartbeat_writes_nothing :
    discoverable sampleConsts peerC = false ∧
    peer_change_event sampleConsts peerC .PS_EVENT_HEART_BEAT 0 = ([], 0) ∧
    peer_change_event sampleConsts peerC .PS_EVENT_REMOVED 0 = ([], 0) ∧
    (peer_change_event sampleConsts peerC .PS_EVENT_HEART_BEAT 0).1 ≠
      locator_event sampleConsts "peerHeartBeat" [.json_write_string peerC.id] ∧
    (peer_change_event sampleConsts peerC .PS_EVENT_REMOVED 0).1 ≠
      locator_event sampleConsts "peerRemoved" [.json_write_string peerC.id] := by
  decide

/-- C10 (amended): the discoverability filter applies to all four kinds of
notification.  For a peer marked discoverable, a heartbeat or removed
notification writes exactly one event: "E", "Locator", the event name
(`peerHeartBeat` or `peerRemoved`), the peer ID only, the terminating NUL and
the end-of-message marker, and flushes it; an added or changed notification
writes exactly one event carrying the full peer object (ID plus every
property) with no leading comma, whatever value the shared peer counter held.
For a peer not marked discoverable, no notification of any kind writes
anything. -/
theorem C10_events_of_discoverable_peers (K : Consts) (ps : PeerServer) (pc : Int) :
    (discoverable K ps = true →
      (peer_change_event K ps .PS_EVENT_HEART_BEAT pc).1 =
        locator_event K "peerHeartBeat" [.json_write_string ps.id] ∧
      (peer_change_event K ps .PS_EVENT_REMOVED pc).1 =
        locator_event K "peerRemoved" [.json_write_string ps.id] ∧
      (peer_change_event K ps .PS_EVENT_ADDED pc).1 =
        locator_event K "peerAdded" (peer_object ps) ∧
      (peer_change_event K ps .PS_EVENT_CHANGED pc).1 =
        locator_event K "peerChanged" (peer_object ps)) ∧
    (discoverable K ps = false →
      ∀ type : PeerEventType, peer_change_event K ps type pc = ([], pc)) := by
  constructor
  · intro hd
    have hne : ¬ (ps.flags &&& K.PS_FLAG_DISCOVERABLE = 0) := by
      simpa [discoverable] using hd
    simp [peer_change_event, hne, locator_event, write_peer_properties_eq]
  · intro hd type
    have he : ps.flags &&& K.PS_FLAG_DISCOVERABLE = 0 := by
      simpa [discoverable] using hd
    simp [peer_change_event, he]

/-- A witness of C10 (amended): the heartbeat of the discoverable peer A. -/
theorem C10_events_of_discoverable_peers_witness :
    (peer_change_event sampleConsts peerA .PS_EVENT_HEART_BEAT 7).1 =
      locator_event sampleConsts "peerHeartBeat" [.json_write_string peerA.id] :=
  ((C10_events_of_discoverable_peers sampleConsts peerA 7).1 (by decide)).1

/-! ### redirect -/

theorem redirect_unknown (K : Consts) (registry : List PeerServer) (token : String) (c : Nat)
    (inp : RedirectArgs) (id : String) (heap : Nat) (done : Completion)
    (hw : inp.wellFormed K id) (hf : peer_server_find registry id = none) :
    redirect K registry token c inp heap done = reply K c token K.ERR_UNKNOWN_PEER := by
  obtain ⟨h1, h2, h3⟩ := hw
  simp [redirect, command_redirect, h1, h2, h3, hf, reply, completions]

theorem redirect_found (K : Consts) (registry : List PeerServer) (token : String) (c : Nat)
    (inp : RedirectArgs) (id : String) (heap : Nat) (done : Completion) (ps : PeerServer)
    (hw : inp.wellFormed K id) (hf : peer_server_find registry id = some ps) :
    redirect K registry token c inp heap done =
      [Action.loc_alloc_zero heap, Action.stream_lock c,
        Action.channel_connect ps { addr := heap, channel := c, token := strncpy token 255 }]
      ++ channel_connected K { addr := heap, channel := c, token := strncpy token 255 }
          done.error done.c2 done.closed := by
  obtain ⟨h1, h2, h3⟩ := hw
  simp [redirect, command_redirect, h1, h2, h3, hf, completions]

/-- Every redirect is one of: nothing done (malformed arguments), the reply
`unknown peer`, or a connection attempt followed by its callback. -/
theorem redirect_cases (K : Consts) (registry : List PeerServer) (token : String) (c : Nat)
    (inp : RedirectArgs) (heap : Nat) (done : Completion) :
    redirect K registry token c inp heap done = [] ∨
    redirect K registry token c inp heap done = reply K c token K.ERR_UNKNOWN_PEER ∨
    ∃ ps : PeerServer, redirect K registry token c inp heap done =
      [Action.loc_alloc_zero heap, Action.stream_lock c,
        Action.channel_connect ps { addr := heap, channel := c, token := strncpy token 255 }]
      ++ channel_connected K { addr := heap, channel := c, token := strncpy token 255 }
          done.error done.c2 done.closed := by
  cases hid : inp.id with
  | error e => left; simp [redirect, command_redirect, hid, completions]
  | ok id =>
    by_cases h2 : inp.ch1 = 0
    · by_cases h3 : inp.ch2 = K.MARKER_EOM
      · cases hf : peer_server_find registry id with
        | none => right; left; exact redirect_unknown K registry token c inp id heap done ⟨hid, h2, h3⟩ hf
        | some ps =>
          right; right
          exact ⟨ps, redirect_found K registry token c inp id heap done ps ⟨hid, h2, h3⟩ hf⟩
      · left; simp [redirect, command_redirect, hid, h2, h3, completions]
    · left; simp [redirect, command_redirect, hid, h2, completions]

theorem channel_connected_counts (K : Consts) (heap c : Nat) (tok : String) (error : Int)
    (c2 : Nat) (closed : Bool) :
    (∀ d, (channel_connected K { addr := heap, channel := c, token := tok } error c2
        closed).count (Action.stream_unlock d) = if c = d then 1 else 0) ∧
    (∀ d, (channel_connected K { addr := heap, channel := c, token := tok } error c2
        closed).count (Action.stream_lock d) = 0) ∧
    (∀ h, (channel_connected K { addr := heap, channel := c, token := tok } error c2
        closed).count (Action.loc_free h) = if heap = h then 1 else 0) ∧
    (∀ h, (channel_connected K { addr := heap, channel := c, token := tok } error c2
        closed).count (Action.loc_alloc_zero h) = 0) := by
  refine ⟨?_, ?_, ?_, ?_⟩ <;> intro d <;> cases closed <;> by_cases he : error = 0 <;>
    simp [channel_connected, he, List.count_cons]

/-- C5: in every redirect, each `stream_lock` is matched by exactly one
`stream_unlock` on the same channel and each `RedirectInfo` allocated is freed
exactly once.  When the peer is found, whatever the outcome of the connection
and whether or not the requesting channel is closed by then, the requesting
channel is locked exactly once and unlocked exactly once, and the record is
allocated once and freed once; when the peer is not found, no reference is
taken and none is released, and no record is allocated or freed. -/
theorem C5_reference_released_exactly_once (K : Consts) (registry : List PeerServer)
    (token : String) (c : Nat) (inp : RedirectArgs) (heap : Nat) (done : Completion) :
    (∀ d : Nat,
      (redirect K registry token c inp heap done).count (Action.stream_unlock d) =
        (redirect K registry token c inp heap done).count (Action.stream_lock d)) ∧
    (∀ h : Nat,
      (redirect K registry token c inp heap done).count (Action.loc_free h) =
        (redirect K registry token c inp heap done).count (Action.loc_alloc_zero h)) ∧
    (∀ (id : String) (ps : PeerServer),
      inp.wellFormed K id → peer_server_find registry id = some ps →
        (redirect K registry token c inp heap done).count (Action.stream_lock c) = 1 ∧
        (redirect K registry token c inp heap done).count (Action.stream_unlock c) = 1 ∧
        (redirect K registry token c inp heap done).count (Action.loc_alloc_zero heap) = 1 ∧
        (redirect K registry token c inp heap done).count (Action.loc_free heap) = 1) ∧
    (∀ (id : String),
      inp.wellFormed K id → peer_server_find registry id = none →
        ∀ d : Nat,
          (redirect K registry token c inp heap done).count (Action.stream_lock d) = 0 ∧
          (redirect K registry token c inp heap done).count (Action.stream_unlock d) = 0 ∧
          (redirect K registry token c inp heap done).count (Action.loc_alloc_zero d) = 0 ∧
          (redirect K registry token c inp heap done).count (Action.loc_free d) = 0) := by
  obtain ⟨hu, hl, hf, ha⟩ :=
    channel_connected_counts K heap c (strncpy token 255) done.error done.c2 done.closed
  refine ⟨?_, ?_, ?_, ?_⟩
  · intro d
    rcases redirect_cases K registry token c inp heap done with h | h | ⟨ps, h⟩
    · simp [h]
    · simp [h, reply, List.count_cons]
    · rw [h, List.count_append, List.count_append, hu, hl]
      simp [List.count_cons]
  · intro d
    rcases redirect_cases K registry token c inp heap done with h | h | ⟨ps, h⟩
    · simp [h]
    · simp [h, reply, List.count_cons]
    · rw [h, List.count_append, List.count_append, hf, ha]
      simp [List.count_cons]
  · intro id ps hw hfind
    rw [redirect_found K registry token c inp id heap done ps hw hfind]
    simp only [List.count_append, hu, hl, hf, ha]
    simp [List.count_cons]
  · intro id hw hfind d
    rw [redirect_unknown K registry token c inp id heap done hw hfind]
    simp [reply, List.count_cons]

/-- A witness of C5: a redirect to the registered peer A whose connection
succeeds while the requesting channel 5 is open. -/
theorem C5_reference_released_exactly_once_witness :
    (redirect sampleConsts [peerA] "tok" 5 (redirectArgs sampleConsts peerA.id) 100
        ⟨0, 6, false⟩).count (Action.stream_lock 5) = 1 ∧
    (redirect sampleConsts [peerA] "tok" 5 (redirectArgs sampleConsts peerA.id) 100
        ⟨0, 6, false⟩).count (Action.stream_unlock 5) = 1 ∧
    (redirect sampleConsts [peerA] "tok" 5 (redirectArgs sampleConsts peerA.id) 100
        ⟨0, 6, false⟩).count (Action.loc_alloc_zero 100) = 1 ∧
    (redirect sampleConsts [peerA] "tok" 5 (redirectArgs sampleConsts peerA.id) 100
        ⟨0, 6, false⟩).count (Action.loc_free 100) = 1 :=
  (C5_reference_released_exactly_once sampleConsts [peerA] "tok" 5
    (redirectArgs sampleConsts peerA.id) 100 ⟨0, 6, false⟩).2.2.1 peerA.id peerA
      ⟨rfl, rfl, rfl⟩ (by decide)

/-- C6: for a well-formed `redirect` whose peer identifier is not found by
`peer_server_find`, `command_redirect` makes exactly four calls, all on the
output of the requesting channel: "R", the token of the command, the error
`ERR_UNKNOWN_PEER` and the end-of-message marker.  It raises no exception,
never calls `channel_connect`, takes no reference on the channel, and no
callback follows. -/
theorem C6_unknown_peer_replies_at_once (K : Consts) (registry : List PeerServer)
    (token : String) (c : Nat) (inp : RedirectArgs) (id : String) (heap : Nat) (pc : Int)
    (hw : inp.wellFormed K id) (hf : peer_server_find registry id = none) :
    (command_redirect K registry token c inp heap pc).calls =
      [Action.out c (.write_stringz "R"),
       Action.out c (.write_stringz token),
       Action.out c (.write_errno K.ERR_UNKNOWN_PEER),
       Action.out c (.write_stream K.MARKER_EOM)] ∧
    (command_redirect K registry token c inp heap pc).raised = none ∧
    (∀ (ps : PeerServer) (info : RedirectInfo),
      Action.channel_connect ps info ∉ (command_redirect K registry token c inp heap pc).calls) ∧
    (∀ d : Nat, Action.stream_lock d ∉ (command_redirect K registry token c inp heap pc).calls) ∧
    (∀ done : Completion,
      redirect K registry token c inp heap done =
        (command_redirect K registry token c inp heap pc).calls) := by
  obtain ⟨h1, h2, h3⟩ := hw
  have hc : (command_redirect K registry token c inp heap pc).calls =
      [Action.out c (.write_stringz "R"),
       Action.out c (.write_stringz token),
       Action.out c (.write_errno K.ERR_UNKNOWN_PEER),
       Action.out c (.write_stream K.MARKER_EOM)] := by
    simp [command_redirect, h1, h2, h3, hf]
  refine ⟨hc, ?_, ?_, ?_, ?_⟩
  · simp [command_redirect, h1, h2, h3, hf]
  · intro ps info
    simp [hc]
  · intro d
    simp [hc]
  · intro done
    rw [hc, redirect_unknown K registry token c inp id heap done ⟨h1, h2, h3⟩ hf]
    rfl

/-- A witness of C6: a redirect to an identifier that the registry does not
hold. -/
theorem C6_unknown_peer_replies_at_once_witness :
    (command_redirect sampleConsts [peerA] "t7" 5 (redirectArgs sampleConsts "nobody") 100
        0).calls =
      [Action.out 5 (.write_stringz "R"),
       Action.out 5 (.write_stringz "t7"),
       Action.out 5 (.write_errno sampleConsts.ERR_UNKNOWN_PEER),
       Action.out 5 (.write_stream sampleConsts.MARKER_EOM)] :=
  (C6_unknown_peer_replies_at_once sampleConsts [peerA] "t7" 5
    (redirectArgs sampleConsts "nobody") "nobody" 100 0 ⟨rfl, rfl, rfl⟩ (by decide)).1

/-- C7: when the requesting channel is closed at the time `channel_connected`
runs, nothing is written to any channel output and `proxy_create` is not
called.  If the connection succeeded (error 0) the calls are exactly
`channel_close` of the new channel, then the release of the reference and of
the record; if it failed, only the release of the reference and of the
record. -/
theorem C7_closed_requester_gets_no_reply (K : Consts) (info : RedirectInfo) (error : Int)
    (c2 : Nat) :
    (∀ (d : Nat) (op : StreamOp),
      Action.out d op ∉ channel_connected K info error c2 true) ∧
    (∀ a b : Nat, Action.proxy_create a b ∉ channel_connected K info error c2 true) ∧
    (error = 0 →
      channel_connected K info error c2 true =
        [Action.channel_close c2, Action.stream_unlock info.channel,
         Action.loc_free info.addr] ∧
      (channel_connected K info error c2 true).count (Action.channel_close c2) = 1) ∧
    (error ≠ 0 →
      channel_connected K info error c2 true =
        [Action.stream_unlock info.channel, Action.loc_free info.addr] ∧
      ∀ d : Nat, Action.channel_close d ∉ channel_connected K info error c2 true) := by
  refine ⟨?_, ?_, ?_, ?_⟩
  · intro d op
    by_cases he : error = 0 <;> simp [channel_connected, he]
  · intro a b
    by_cases he : error = 0 <;> simp [channel_connected, he]
  · intro he
    simp [channel_connected, he, List.count_cons]
  · intro he
    simp [channel_connected, he]

/-- A witness of C7: the connection succeeded with new channel 6 after the
requesting channel 5 was closed. -/
theorem C7_closed_requester_gets_no_reply_witness :
    channel_connected sampleConsts { addr := 100, channel := 5, token := "tok" } 0 6 true =
      [Action.channel_close 6, Action.stream_unlock 5, Action.loc_free 100] :=
  ((C7_closed_requester_gets_no_reply sampleConsts
    { addr := 100, channel := 5, token := "tok" } 0 6).2.2.1 rfl).1

set_option maxRecDepth 100000 in
/-- C8 as stated fails for a long token: with a token of 256 characters, what
is written to the requesting channel is not the reply carrying that token (the
reply carries its first 255 characters). -/
theorem C8_long_token_not_echoed :
    written 5
      (redirect sampleConsts [peerA] longToken 5 (redirectArgs sampleConsts peerA.id) 100
        ⟨0, 6, false⟩) ≠
    written 5 (reply sampleConsts 5 longToken 0) := by
  decide

/-- C8 (amended): for every redirect command whose peer is found and whose
requesting channel is still open when the connection attempt completes, exactly
one reply is written to the requesting channel: "R", the first 255 characters
of the token of the original command (the whole token when it has at most 255
characters), the error code of the connection (0 on success) and the
end-of-message marker.  `proxy_create` is called with the requesting channel
and the new channel exactly when the connection succeeded, before the reply. -/
theorem C8_reply_carries_token_and_connect_error (K : Consts) (registry : List PeerServer)
    (token : String) (c : Nat) (inp : RedirectArgs) (id : String) (heap : Nat)
    (ps : PeerServer) (error : Int) (c2 : Nat)
    (hw : inp.wellFormed K id) (hf : peer_server_find registry id = some ps) :
    redirect K registry token c inp heap { error := error, c2 := c2, closed := false } =
      [Action.loc_alloc_zero heap, Action.stream_lock c,
        Action.channel_connect ps { addr := heap, channel := c, token := strncpy token 255 }]
      ++ (if error = 0 then [Action.proxy_create c c2] else [])
      ++ reply K c (strncpy token 255) error
      ++ [Action.stream_unlock c, Action.loc_free heap] ∧
    written c (redirect K registry token c inp heap
        { error := error, c2 := c2, closed := false }) =
      [StreamOp.write_stringz "R", StreamOp.write_stringz (strncpy token 255),
       StreamOp.write_errno error, StreamOp.write_stream K.MARKER_EOM] ∧
    (token.length ≤ 255 → strncpy token 255 = token) ∧
    ((Action.proxy_create c c2 ∈
        redirect K registry token c inp heap { error := error, c2 := c2, closed := false }) ↔
      error = 0) := by
  have hr := redirect_found K registry token c inp id heap
    { error := error, c2 := c2, closed := false } ps hw hf
  have hfull : redirect K registry token c inp heap
      { error := error, c2 := c2, closed := false } =
      [Action.loc_alloc_zero heap, Action.stream_lock c,
        Action.channel_connect ps { addr := heap, channel := c, token := strncpy token 255 }]
      ++ (if error = 0 then [Action.proxy_create c c2] else [])
      ++ reply K c (strncpy token 255) error
      ++ [Action.stream_unlock c, Action.loc_free heap] := by
    rw [hr]
    simp [channel_connected, reply]
  refine ⟨hfull, ?_, ?_, ?_⟩
  · rw [hfull]
    by_cases he : error = 0 <;> simp [written, reply, he, List.filterMap_cons]
  · intro hlen
    have : token.data.length ≤ 255 := hlen
    simp [strncpy, List.take_of_length_le this]
  · rw [hfull]
    by_cases he : error = 0 <;> simp [reply, he]

/-- A witness of C8 (amended): a redirect with token "tok" to the registered
peer A whose connection succeeds while the requesting channel 5 is open. -/
theorem C8_reply_carries_token_and_connect_error_witness :
    written 5 (redirect sampleConsts [peerA] "tok" 5 (redirectArgs sampleConsts peerA.id) 100
        { error := 0, c2 := 6, closed := false }) =
      [StreamOp.write_stringz "R", StreamOp.write_stringz (strncpy "tok" 255),
       StreamOp.write_errno 0, StreamOp.write_stream sampleConsts.MARKER_EOM] :=
  (C8_reply_carries_token_and_connect_error sampleConsts [peerA] "tok" 5
    (redirectArgs sampleConsts peerA.id) peerA.id 100 peerA 0 6 ⟨rfl, rfl, rfl⟩
    (by decide)).2.1

end TCF.Discovery
